import Mathlib

/-!
Verification development for the gamacros event-to-action engine
(`crates/gamacrosd/src/app/gamacros.rs` and `crates/gamacros-workspace/src/profile.rs`).

The engine is embedded shallowly: the Rust structs become Lean structures,
`AHashMap` becomes an association list (a deterministic iteration order standing
in for the hash map's arbitrary-but-fixed one), `Instant` becomes a `Nat`
millisecond timestamp (the clock read `Instant::now()` inside `on_button_with`
becomes an explicit `now` parameter), `f32` axis values become `Rat`, and the
caller-supplied sink becomes the returned `List Action`.

Types whose defining crates are not part of the provided sources
(`gamacros-bit-mask`, `gamacros-gamepad`, the `app::stick` module and
`app::ButtonPhase`) are modelled from the specification and marked as such in
their doc comments.
-/

set_option maxHeartbeats 1000000
set_option linter.constructorNameAsVariable false

namespace GamacrosSpec

/-- Modelled from the spec: `gamacros_gamepad::Button`, an enumerated controller
button (A/B/X/Y, shoulders, triggers-as-buttons, dpad, thumbsticks,
start/select/guide); the defining crate is not among the provided sources. -/
inductive Button where
  | a | b | x | y
  | leftShoulder | rightShoulder
  | leftTrigger | rightTrigger
  | dpadUp | dpadDown | dpadLeft | dpadRight
  | leftStick | rightStick
  | start | select | guide
  deriving DecidableEq, Repr

/-- Modelled from the spec: `gamacros_gamepad::ControllerId`, an opaque stable
identifier assigned by the gamepad backend; the defining crate is not among the
provided sources. -/
abbrev ControllerId := Nat

/-- Modelled from the spec: `gamacros_gamepad::ControllerInfo`
(id, name, vendor_id, product_id, supports_rumble); immutable after
connection. The defining crate is not among the provided sources. -/
structure ControllerInfo where
  id : ControllerId
  name : String
  vendor_id : Nat
  product_id : Nat
  supports_rumble : Bool
  deriving DecidableEq, Repr

/-- Modelled from the spec: `gamacros_gamepad::Axis` (the six analog axes
LX, LY, RX, RY, LT, RT); the defining crate is not among the provided
sources. -/
inductive CtrlAxis where
  | leftX | leftY | rightX | rightY | triggerLeft | triggerRight
  deriving DecidableEq, Repr

/-- Modelled from the spec: `app::stick::util::axis_index`, the axis indexing
LX=0, LY=1, RX=2, RY=3, LT=4, RT=5; the defining module is not among the
provided sources. -/
def stick_axis_index : CtrlAxis → Nat
  | .leftX => 0
  | .leftY => 1
  | .rightX => 2
  | .rightY => 3
  | .triggerLeft => 4
  | .triggerRight => 5

/-- Modelled from the spec: `app::ButtonPhase` (Pressed / Released); the
defining module is not among the provided sources. -/
inductive ButtonPhase where
  | Pressed
  | Released
  deriving DecidableEq, Repr

/-- Modelled from the spec: `gamacros_control::KeyCombo`, an opaque key
combination; represented by its textual form. The defining crate is not among
the provided sources. -/
structure KeyCombo where
  combo : String
  deriving DecidableEq, Repr

/-- Modelled from the spec: `gamacros_bit_mask::Bitmask<Button>`, a dense set
of buttons with `insert`, `remove`, `contains`, `is_superset` (set
containment) and `count` (cardinality); equality is set equality. The defining
crate is not among the provided sources, so the set semantics given in §4.1 of
the spec is embedded directly as a `Finset`: `insert` is `Finset.insert`,
`remove` is `Finset.erase`, `count` (popcount) is `Finset.card`. -/
abbrev Bitmask := Finset Button

/-- `Bitmask::is_superset` (spec §4.1): `self & other == other`, i.e.
`other ⊆ self`, as a boolean the way the Rust method returns one. -/
def bitmaskSuperset (m other : Bitmask) : Bool :=
  decide (other ⊆ m)

/- ### Association lists standing in for `ahash::AHashMap` -/

/-- Lookup in an association list (`AHashMap::get`). -/
def alGet {κ ν : Type} [DecidableEq κ] : List (κ × ν) → κ → Option ν
  | [], _ => none
  | e :: es, k => if e.1 = k then some e.2 else alGet es k

/-- Insert-or-replace in an association list (`AHashMap::insert`). -/
def alInsert {κ ν : Type} [DecidableEq κ] : List (κ × ν) → κ → ν → List (κ × ν)
  | [], k, v => [(k, v)]
  | e :: es, k, v => if e.1 = k then (k, v) :: es else e :: alInsert es k v

/-- Key removal from an association list (`AHashMap::remove`). -/
def alRemove {κ ν : Type} [DecidableEq κ] : List (κ × ν) → κ → List (κ × ν)
  | [], _ => []
  | e :: es, k => if e.1 = k then alRemove es k else e :: alRemove es k

theorem alGet_alInsert_self {κ ν : Type} [DecidableEq κ] (l : List (κ × ν)) (k : κ) (v : ν) :
    alGet (alInsert l k v) k = some v := by
  induction l with
  | nil => simp [alInsert, alGet]
  | cons e es ih =>
    by_cases h : e.1 = k
    · simp [alInsert, if_pos h, alGet]
    · simp only [alInsert, if_neg h, alGet, if_neg h, ih]

theorem alGet_alInsert_ne {κ ν : Type} [DecidableEq κ] (l : List (κ × ν)) (k k' : κ) (v : ν)
    (h : k ≠ k') : alGet (alInsert l k v) k' = alGet l k' := by
  induction l with
  | nil => simp only [alInsert, alGet, if_neg h]
  | cons e es ih =>
    by_cases he : e.1 = k
    · have hne : e.1 ≠ k' := fun hh => h (he.symm.trans hh)
      simp only [alInsert, if_pos he, alGet, if_neg h, if_neg hne]
    · simp only [alInsert, if_neg he, alGet, ih]

theorem alGet_alRemove_self {κ ν : Type} [DecidableEq κ] (l : List (κ × ν)) (k : κ) :
    alGet (alRemove l k) k = none := by
  induction l with
  | nil => rfl
  | cons e es ih =>
    by_cases h : e.1 = k
    · simp only [alRemove, if_pos h, ih]
    · simp only [alRemove, if_neg h, alGet, if_neg h, ih]

theorem alGet_alRemove_ne {κ ν : Type} [DecidableEq κ] (l : List (κ × ν)) (k k' : κ)
    (h : k ≠ k') : alGet (alRemove l k) k' = alGet l k' := by
  induction l with
  | nil => rfl
  | cons e es ih =>
    by_cases he : e.1 = k
    · have hne : e.1 ≠ k' := fun hh => h (he.symm.trans hh)
      simp only [alRemove, if_pos he, alGet, if_neg hne, ih]
    · simp only [alRemove, if_neg he, alGet, ih]

/- ### Profile data model (`crates/gamacros-workspace/src/profile.rs`) -/

/-- `profile.rs`: `Macros`, a sequence of key combos. -/
abbrev Macros := List KeyCombo

/-- `profile.rs`: `MouseButton`. -/
inductive MouseButton where
  | Left
  | Right
  | Middle
  deriving DecidableEq, Repr

/-- `profile.rs`: `MouseClickType`. -/
inductive MouseClickType where
  | Click
  | DoubleClick
  deriving DecidableEq, Repr

/-- `profile.rs`: `RawModifierKey`, a raw modifier key identifier. -/
inductive RawModifierKey where
  | Control
  | RControl
  | Shift
  | RShift
  | Command
  | RCommand
  | Option
  | ROption
  deriving DecidableEq, Repr

/-- `profile.rs`: `ButtonAction`. -/
inductive ButtonAction where
  | Keystroke (k : KeyCombo)
  | TapKeystroke (k : KeyCombo)
  | Macros (m : Macros)
  | Shell (s : String)
  | MouseClick (button : MouseButton) (click_type : MouseClickType)
  | RawModifier (key : RawModifierKey)
  deriving DecidableEq, Repr

/-- `profile.rs`: `ButtonRule`. -/
structure ButtonRule where
  action : ButtonAction
  vibrate : Option Nat
  repeat_delay_ms : Option Nat
  repeat_interval_ms : Option Nat
  deriving DecidableEq, Repr

/-- `profile.rs`: `StickSide`. -/
inductive StickSide where
  | Left
  | Right
  deriving DecidableEq, Repr

/-- `profile.rs`: `Axis` (profile axis selector for stepper modes). -/
inductive PAxis where
  | X
  | Y
  deriving DecidableEq, Repr

/-- `profile.rs`: `ArrowsParams`. -/
structure ArrowsParams where
  deadzone : Rat
  repeat_delay_ms : Nat
  repeat_interval_ms : Nat
  invert_x : Bool
  invert_y : Bool
  deriving DecidableEq

/-- `profile.rs`: `StepperParams`. -/
structure StepperParams where
  axis : PAxis
  deadzone : Rat
  min_interval_ms : Nat
  max_interval_ms : Nat
  invert : Bool
  deriving DecidableEq

/-- `profile.rs`: `MouseParams`. -/
structure MouseParams where
  deadzone : Rat
  max_speed_px_s : Rat
  gamma : Rat
  invert_x : Bool
  invert_y : Bool
  deriving DecidableEq

/-- `profile.rs`: `ScrollParams`. -/
structure ScrollParams where
  deadzone : Rat
  speed_lines_s : Rat
  horizontal : Bool
  invert_x : Bool
  invert_y : Bool
  deriving DecidableEq

/-- `profile.rs`: `StickMode`. -/
inductive StickMode where
  | Arrows (p : ArrowsParams)
  | Volume (p : StepperParams)
  | Brightness (p : StepperParams)
  | MouseMove (p : MouseParams)
  | Scroll (p : ScrollParams)
  deriving DecidableEq

/-- `profile.rs`: `ButtonRules = AHashMap<ButtonChord, ButtonRule>`, with the
chord itself a `Bitmask<Button>`. -/
abbrev ButtonRules := List (Bitmask × ButtonRule)

/-- `profile.rs`: `StickRules = AHashMap<StickSide, StickMode>`. -/
abbrev StickRules := List (StickSide × StickMode)

/-- `profile.rs`: `AppRules`. -/
structure AppRules where
  buttons : ButtonRules
  sticks : StickRules
  deriving DecidableEq

/-- `profile.rs`: `ControllerSettings` (a button remap). -/
structure ControllerSettings where
  mapping : List (Button × Button)
  deriving DecidableEq

instance : Inhabited ControllerSettings := ⟨⟨[]⟩⟩

/-- `profile.rs`: `Profile`. The workspace crate's `ControllerId` key is the
`(vendor_id, product_id)` pair. -/
structure Profile where
  controllers : List ((Nat × Nat) × ControllerSettings)
  blacklist : List String
  rules : List (String × AppRules)
  shell : Option String
  deriving DecidableEq

/- ### Stick machinery (the `app::stick` module is not among the provided sources) -/

/-- Modelled from the spec: the arrow direction of §4.4.2. -/
inductive ArrowDir where
  | Up
  | Down
  | Left
  | Right
  deriving DecidableEq, Repr

/-- Modelled from the spec: the per-side arrows state machine state of §4.4.2,
`Idle` or `Held` with direction, next fire time and delay flag. -/
inductive SideState where
  | Idle
  | Held (direction : ArrowDir) (next_fire : Nat) (delay_done : Bool)
  deriving DecidableEq, Repr

/-- Modelled from the spec: `app::stick::StickProcessor` state (§4.4.6):
per-controller per-side stick states plus a pending-repeat heap of
`(next_fire, token)` entries. The module is not among the provided sources;
only the operations the verified claims touch are modelled. -/
structure StickProcessor where
  states : List ((ControllerId × StickSide) × SideState)
  heap : List (Nat × (ControllerId × StickSide))
  deriving DecidableEq

/-- Modelled from the spec: `StickProcessor::new`, the empty processor. -/
def StickProcessor.new : StickProcessor := ⟨[], []⟩

/-- Modelled from the spec (§4.4.6): `on_app_change` resets all per-side
states to `Idle` and clears the heap. -/
def StickProcessor.on_app_change (_sp : StickProcessor) : StickProcessor := ⟨[], []⟩

/-- Modelled from the spec (§4.4.6): `release_all_for` drops all state and
heap entries for a disconnected controller. -/
def StickProcessor.release_all_for (sp : StickProcessor) (id : ControllerId) : StickProcessor :=
  ⟨sp.states.filter (fun e => decide (e.1.1 ≠ id)),
   sp.heap.filter (fun e => decide (e.2.1 ≠ id))⟩

/-- Modelled from the spec: `app::stick::CompiledStickRules`, the
profile-derived fast-lookup structure holding the active stick mode for the
left and right sticks (§2 item 2). The module is not among the provided
sources. -/
structure CompiledStickRules where
  left : Option StickMode
  right : Option StickMode
  deriving DecidableEq

/-- Modelled from the spec: `CompiledStickRules::from_rules`, the compilation
of a `StickRules` map into the per-side lookup. -/
def CompiledStickRules.from_rules (r : StickRules) : CompiledStickRules :=
  ⟨alGet r StickSide.Left, alGet r StickSide.Right⟩

/- ### The engine (`crates/gamacrosd/src/app/gamacros.rs`) -/

/-- `gamacros.rs`: `Action`, the engine output fed to the sink. -/
inductive Action where
  | KeyPress (k : KeyCombo)
  | KeyRelease (k : KeyCombo)
  | KeyTap (k : KeyCombo)
  | Macros (m : Macros)
  | Shell (s : String)
  | MouseClick (button : MouseButton) (click_type : MouseClickType)
  | MouseMove (dx : Int) (dy : Int)
  | Scroll (h : Int) (v : Int)
  | Rumble (id : ControllerId) (ms : Nat)
  | RawModifierPress (key : RawModifierKey)
  | RawModifierRelease (key : RawModifierKey)
  deriving DecidableEq, Repr

/-- `gamacros.rs`: `ControllerState` (per connected controller). -/
structure ControllerState where
  mapping : ControllerSettings
  pressed : Bitmask
  rumble : Bool
  axes : List Rat
  deriving DecidableEq

/-- `gamacros.rs`: `DEFAULT_REPEAT_DELAY_MS`. -/
def DEFAULT_REPEAT_DELAY_MS : Nat := 400

/-- `gamacros.rs`: `DEFAULT_REPEAT_INTERVAL_MS`. -/
def DEFAULT_REPEAT_INTERVAL_MS : Nat := 50

/-- `gamacros.rs`: `ButtonRepeatTask`; `Instant` is embedded as a `Nat`
millisecond timestamp. -/
structure ButtonRepeatTask where
  key : KeyCombo
  interval_ms : Nat
  next_fire : Nat
  delay_done : Bool
  deriving DecidableEq, Repr

/-- The button repeat table `AHashMap<(ControllerId, Button), ButtonRepeatTask>`. -/
abbrev RepTable := List ((ControllerId × Button) × ButtonRepeatTask)

/-- `gamacros.rs`: the `Gamacros` engine state. The `axes_scratch` field is
omitted: it is a transient scratch buffer that `on_tick_with` clears and
refills on every call, carrying no state across the methods embedded here. -/
structure Gamacros where
  workspace : Option Profile
  active_app : String
  controllers : List (ControllerId × ControllerState)
  sticks : StickProcessor
  active_stick_rules : Option StickRules
  compiled_stick_rules : Option CompiledStickRules
  button_repeats : RepTable
  deriving DecidableEq

namespace Gamacros

/-- `Gamacros::new`. -/
def new : Gamacros :=
  { workspace := none
    active_app := ""
    controllers := []
    sticks := StickProcessor.new
    active_stick_rules := none
    compiled_stick_rules := none
    button_repeats := [] }

/-- `Gamacros::is_known`. -/
def is_known (g : Gamacros) (id : ControllerId) : Bool :=
  (alGet g.controllers id).isSome

/-- `Gamacros::remove_workspace`. -/
def remove_workspace (g : Gamacros) : Gamacros :=
  { g with workspace := none, active_stick_rules := none, compiled_stick_rules := none }

/-- The app-rules lookup `workspace.rules.get(app).or_else(|| workspace.rules.get("common"))`
shared by `set_workspace`, `set_active_app` and `on_button_with`. -/
def rulesLookup (rules : List (String × AppRules)) (app : String) : Option AppRules :=
  match alGet rules app with
  | some r => some r
  | none => alGet rules "common"

/-- `Gamacros::set_workspace`. -/
def set_workspace (g : Gamacros) (workspace : Profile) : Gamacros :=
  let g1 := { g with workspace := some workspace }
  if g1.active_app ≠ "" then
    match g1.workspace with
    | some ws =>
      match rulesLookup ws.rules g1.active_app with
      | some app_rules =>
        { g1 with
          active_stick_rules := some app_rules.sticks
          compiled_stick_rules := some (CompiledStickRules.from_rules app_rules.sticks) }
      | none =>
        { g1 with active_stick_rules := none, compiled_stick_rules := none }
    | none => g1
  else g1

/-- `Gamacros::add_controller`. -/
def add_controller (g : Gamacros) (info : ControllerInfo) : Gamacros :=
  let settings :=
    (g.workspace.bind (fun ws => alGet ws.controllers (info.vendor_id, info.product_id))).getD default
  let state : ControllerState :=
    { mapping := settings
      pressed := ∅
      rumble := info.supports_rumble
      axes := List.replicate 6 0 }
  { g with controllers := alInsert g.controllers info.id state }

/-- `Gamacros::remove_controller`. -/
def remove_controller (g : Gamacros) (id : ControllerId) : Gamacros :=
  { g with controllers := alRemove g.controllers id }

/-- `Gamacros::supports_rumble`. -/
def supports_rumble (g : Gamacros) (id : ControllerId) : Bool :=
  ((alGet g.controllers id).map (fun s => s.rumble)).getD false

/-- `Gamacros::set_active_app`. -/
def set_active_app (g : Gamacros) (app : String) : Gamacros :=
  if g.active_app = app then g
  else
    let g1 := { g with active_app := app, sticks := g.sticks.on_app_change }
    match g1.workspace with
    | none => g1
    | some ws =>
      let asr := (rulesLookup ws.rules g1.active_app).map (fun r => r.sticks)
      { g1 with
        active_stick_rules := asr
        compiled_stick_rules := asr.map CompiledStickRules.from_rules }

/-- `Gamacros::get_active_app`. -/
def get_active_app (g : Gamacros) : String :=
  g.active_app

/-- `Gamacros::get_compiled_stick_rules`. -/
def get_compiled_stick_rules (g : Gamacros) : Option CompiledStickRules :=
  g.compiled_stick_rules

/-- `Gamacros::on_axis_motion`. -/
def on_axis_motion (g : Gamacros) (id : ControllerId) (axis : CtrlAxis) (value : Rat) : Gamacros :=
  let idx := stick_axis_index axis
  match alGet g.controllers id with
  | some st => { g with controllers := alInsert g.controllers id { st with axes := st.axes.set idx value } }
  | none => g

/-- `Gamacros::on_controller_disconnected`. -/
def on_controller_disconnected (g : Gamacros) (id : ControllerId) : Gamacros :=
  { g with sticks := g.sticks.release_all_for id }

/-- `Gamacros::next_button_repeat_due`. -/
def next_button_repeat_due (g : Gamacros) : Option Nat :=
  (g.button_repeats.map (fun e => e.2.next_fire)).min?

/-- `Gamacros::process_button_repeats`; the sink becomes the returned action
list, in emission order. -/
def process_button_repeats (g : Gamacros) (now : Nat) : Gamacros × List Action :=
  let r := g.button_repeats.foldl
    (fun acc e =>
      if now ≥ e.2.next_fire then
        (acc.1 ++ [(e.1, { e.2 with delay_done := true, next_fire := now + e.2.interval_ms })],
         acc.2 ++ [Action.KeyTap e.2.key])
      else (acc.1 ++ [e], acc.2))
    ([], [])
  ({ g with button_repeats := r.1 }, r.2)

/-- `Gamacros::has_active_button_repeats`. -/
def has_active_button_repeats (g : Gamacros) : Bool :=
  !g.button_repeats.isEmpty

/-- The pressed-set mutation of `on_button_with` (`gamacros.rs` lines
343-347): insert the (remapped) button on `Pressed`, remove it on
`Released`. -/
def applyPhase (phase : ButtonPhase) (pressed : Bitmask) (button : Button) : Bitmask :=
  match phase with
  | .Pressed => insert button pressed
  | .Released => pressed.erase button

/-- The fire predicate of `on_button_with` (`gamacros.rs` lines 357-360 and
378-381): on `Pressed` a chord fires iff its containment in the pressed set
changed, on `Released` iff it was contained before and is no longer. -/
def ruleFires (prev now_pressed : Bitmask) (phase : ButtonPhase) (target : Bitmask) : Bool :=
  let was := bitmaskSuperset prev target
  let is_now := bitmaskSuperset now_pressed target
  match phase with
  | .Pressed => was != is_now
  | .Released => was && !is_now

/-- First pass of `on_button_with` (`gamacros.rs` lines 352-367): the maximum
cardinality among chords that fire on this transition, 0 when none fires. -/
def maxFireBits (rules : ButtonRules) (prev now_pressed : Bitmask) (phase : ButtonPhase) : Nat :=
  rules.foldl
    (fun max_bits tr =>
      if ruleFires prev now_pressed phase tr.1 then
        (if tr.1.card > max_bits then tr.1.card else max_bits)
      else max_bits)
    0

/-- The rule-execution body of pass B of `on_button_with` (`gamacros.rs` lines
385-436): emissions are appended to the accumulated action list, repeat-table
insertions and removals are applied to the accumulated table. -/
def execRule (now : Nat) (id : ControllerId) (button : Button) (rumble : Bool)
    (phase : ButtonPhase) (acc : RepTable × List Action) (rule : ButtonRule) :
    RepTable × List Action :=
  match phase with
  | .Pressed =>
    let acts := acc.2 ++
      (match rule.vibrate with
       | some ms => if rumble then [Action.Rumble id ms] else []
       | none => [])
    match rule.action with
    | .Keystroke k =>
      let delay_ms := rule.repeat_delay_ms.getD DEFAULT_REPEAT_DELAY_MS
      let interval_ms := rule.repeat_interval_ms.getD DEFAULT_REPEAT_INTERVAL_MS
      (alInsert acc.1 (id, button)
        { key := k, interval_ms := interval_ms, next_fire := now + delay_ms, delay_done := false },
       acts ++ [Action.KeyTap k])
    | .TapKeystroke k => (acc.1, acts ++ [Action.KeyTap k])
    | .Macros m => (acc.1, acts ++ [Action.Macros m])
    | .Shell s => (acc.1, acts ++ [Action.Shell s])
    | .MouseClick b t => (acc.1, acts ++ [Action.MouseClick b t])
    | .RawModifier key => (acc.1, acts ++ [Action.RawModifierPress key])
  | .Released =>
    match rule.action with
    | .Keystroke _ => (alRemove acc.1 (id, button), acc.2)
    | .RawModifier key => (acc.1, acc.2 ++ [Action.RawModifierRelease key])
    | _ => (acc.1, acc.2)

/-- Second pass of `on_button_with` (`gamacros.rs` lines 374-437): execute
only the firing rules whose chord cardinality equals `max_bits`. -/
def passB (rules : ButtonRules) (reps : RepTable) (now : Nat) (id : ControllerId)
    (button : Button) (rumble : Bool) (prev now_pressed : Bitmask) (phase : ButtonPhase)
    (max_bits : Nat) : RepTable × List Action :=
  rules.foldl
    (fun acc tr =>
      if !ruleFires prev now_pressed phase tr.1 || tr.1.card != max_bits then acc
      else execRule now id button rumble phase acc tr.2)
    (reps, [])

/-- `Gamacros::on_button_with` (`gamacros.rs` lines 305-438). The sink becomes
the returned action list; the internal `Instant::now()` clock read becomes the
`now` parameter. -/
def on_button_with (g : Gamacros) (now : Nat) (id : ControllerId) (button : Button)
    (phase : ButtonPhase) : Gamacros × List Action :=
  match g.workspace with
  | none => (g, [])
  | some workspace =>
    match rulesLookup workspace.rules g.active_app with
    | none => (g, [])
    | some app_rules =>
      match alGet g.controllers id with
      | none => (g, [])
      | some state =>
        let button := (alGet state.mapping.mapping button).getD button
        let rumble := state.rumble
        let prev_pressed := state.pressed
        let now_pressed := applyPhase phase prev_pressed button
        let g1 := { g with controllers := alInsert g.controllers id { state with pressed := now_pressed } }
        let max_bits := maxFireBits app_rules.buttons prev_pressed now_pressed phase
        if max_bits = 0 then (g1, [])
        else
          let r := passB app_rules.buttons g1.button_repeats now id button rumble
            prev_pressed now_pressed phase max_bits
          ({ g1 with button_repeats := r.1 }, r.2)

end Gamacros

open Gamacros

/- ### Concrete fixtures used by the closed theorems below -/

/-- A connected test controller with rumble support. -/
def padInfo : ControllerInfo :=
  { id := 1, name := "pad", vendor_id := 0, product_id := 0, supports_rumble := true }

/-- A shell-action rule, bound below to the single-button chord A. -/
def shellRuleA : ButtonRule :=
  { action := .Shell "a", vibrate := none, repeat_delay_ms := none, repeat_interval_ms := none }

/-- A hold-with-auto-repeat keystroke rule with default delay and interval. -/
def keyRuleX : ButtonRule :=
  { action := .Keystroke ⟨"x"⟩, vibrate := none, repeat_delay_ms := none, repeat_interval_ms := none }

/-- A profile that blacklists `com.block` yet binds chord A to a shell action
under the `common` rules. -/
def blacklistProfile : Profile :=
  { controllers := []
    blacklist := ["com.block"]
    rules := [("common", { buttons := [({Button.a}, shellRuleA)], sticks := [] })]
    shell := none }

/-- A profile whose `common` rules bind chord A to the keystroke rule. -/
def keystrokeProfile : Profile :=
  { controllers := []
    blacklist := []
    rules := [("common", { buttons := [({Button.a}, keyRuleX)], sticks := [] })]
    shell := none }

/-!
### C1

Spec claim: for every loaded profile `P` and active app `A` with
`A ∈ P.blacklist`, `on_button` and `on_tick` emit nothing. The engine never
consults `Profile.blacklist` (the field is read nowhere in the repository), so
a button bound under the resolved rules emits even when the active app is
blacklisted.
-/

/-- C1 (code bug witnessed): with the active app `com.block` listed in the
profile's blacklist, `on_button_with` nevertheless emits the bound shell
action — contradicting the spec's requirement that a blacklisted app
suppresses all emission. -/
theorem blacklist_not_consulted_on_button :
    "com.block" ∈ blacklistProfile.blacklist ∧
      (Gamacros.on_button_with
        (Gamacros.set_active_app
          (Gamacros.add_controller (Gamacros.set_workspace Gamacros.new blacklistProfile) padInfo)
          "com.block")
        0 1 Button.a ButtonPhase.Pressed).2 = [Action.Shell "a"] := by
  constructor
  · decide
  · decide

/-!
### C2

Spec claim: `remove_controller(C)` destroys C's state and purges C's stick and
button repeat tasks, so no later drain emits for C. The code only removes the
controller map entry (`gamacros.rs` lines 138-141); `button_repeats` keeps the
task keyed by C, and `process_button_repeats` keeps emitting from it — forever,
since the release event of an unknown controller is ignored.
-/

/-- C2 (code bug witnessed): after pressing the keystroke-bound button and
removing the controller, the controller state is gone but the button repeat
task keyed by controller 1 still fires a `KeyTap` on the next drain. -/
theorem remove_controller_leaves_button_repeats :
    (alGet
        (Gamacros.remove_controller
          (Gamacros.on_button_with
            (Gamacros.add_controller (Gamacros.set_workspace Gamacros.new keystrokeProfile) padInfo)
            0 1 Button.a ButtonPhase.Pressed).1
          1).controllers 1 = none) ∧
      (Gamacros.process_button_repeats
        (Gamacros.remove_controller
          (Gamacros.on_button_with
            (Gamacros.add_controller (Gamacros.set_workspace Gamacros.new keystrokeProfile) padInfo)
            0 1 Button.a ButtonPhase.Pressed).1
          1)
        400).2 = [Action.KeyTap ⟨"x"⟩] := by
  constructor
  · decide
  · decide

/-!
### C9

Spec claim: two consecutive `set_active_app(X)` calls with the same X behave
like one. The second call hits the early-return guard (`gamacros.rs` lines
148-150), so the whole engine state — active app, stick processor state,
compiled stick rules, button repeat table — is untouched.
-/

theorem set_active_app_result_app (g : Gamacros) (app : String) :
    (Gamacros.set_active_app g app).active_app = app := by
  unfold Gamacros.set_active_app
  by_cases h : g.active_app = app
  · rw [if_pos h]; exact h
  · rw [if_neg h]
    cases g.workspace <;> simp

theorem set_active_app_of_eq (g : Gamacros) (app : String) (h : g.active_app = app) :
    Gamacros.set_active_app g app = g := by
  unfold Gamacros.set_active_app
  rw [if_pos h]

/-- C9 (confirmed): `set_active_app` is idempotent — the second of two
consecutive calls with the same app leaves the engine state (and hence the
per-side stick state and the button repeat table) exactly as the first left
it, and, having no sink, emits nothing. -/
theorem set_active_app_idempotent (g : Gamacros) (app : String) :
    Gamacros.set_active_app (Gamacros.set_active_app g app) app =
      Gamacros.set_active_app g app :=
  set_active_app_of_eq _ _ (set_active_app_result_app g app)

/-!
### C10

Spec claim: `supports_rumble` is false for absent controllers and otherwise
returns the flag captured from `ControllerInfo` at `add_controller`.
-/

/-- C10 (confirmed): `supports_rumble` returns `false` for a controller id
that is absent from the controller map (never added, or already removed), and
after `add_controller(info)` it returns exactly `info.supports_rumble` for
`info.id`. -/
theorem supports_rumble_lookup (g : Gamacros) (id : ControllerId) (info : ControllerInfo) :
    (alGet g.controllers id = none → Gamacros.supports_rumble g id = false) ∧
      Gamacros.supports_rumble (Gamacros.add_controller g info) info.id = info.supports_rumble ∧
      Gamacros.supports_rumble (Gamacros.remove_controller g id) id = false := by
  refine ⟨fun h => ?_, ?_, ?_⟩
  · simp [Gamacros.supports_rumble, h]
  · simp [Gamacros.supports_rumble, Gamacros.add_controller, alGet_alInsert_self]
  · simp [Gamacros.supports_rumble, Gamacros.remove_controller, alGet_alRemove_self]

/-- Witness for C10 at concrete inputs: a fresh engine knows no controller 5,
and adding `padInfo` captures its rumble flag. -/
theorem supports_rumble_lookup_witness :
    Gamacros.supports_rumble Gamacros.new 5 = false ∧
      Gamacros.supports_rumble (Gamacros.add_controller Gamacros.new padInfo) padInfo.id =
        padInfo.supports_rumble ∧
      Gamacros.supports_rumble (Gamacros.remove_controller Gamacros.new 5) 5 = false :=
  ⟨(supports_rumble_lookup Gamacros.new 5 padInfo).1 rfl,
   (supports_rumble_lookup Gamacros.new 5 padInfo).2.1,
   (supports_rumble_lookup Gamacros.new 5 padInfo).2.2⟩

/-!
### C8

Spec claim: after `set_profile(P)` the compiled stick rules always equal the
compilation of P's stick rules for the current active app (falling back to
`"common"`, else none). The code (`gamacros.rs` lines 94-112) recomputes them
only when the active app is non-empty; with the initial empty active app the
stale value (e.g. `none`) is kept even when P has `"common"` stick rules.
-/

/-- The compilation demanded by the spec's words for C8: look up the active
app's rules, fall back to the literal key `common`, else none, and compile the
stick rules found. -/
def specCompiledStickRules (p : Profile) (app : String) : Option CompiledStickRules :=
  match alGet p.rules app with
  | some r => some (CompiledStickRules.from_rules r.sticks)
  | none =>
    match alGet p.rules "common" with
    | some r => some (CompiledStickRules.from_rules r.sticks)
    | none => none

/-- A profile whose `common` rules carry a left-stick scroll mode. -/
def stickProfile : Profile :=
  { controllers := []
    blacklist := []
    rules := [("common",
      { buttons := []
        sticks := [(StickSide.Left,
          StickMode.Scroll
            { deadzone := 1/10, speed_lines_s := 10, horizontal := false,
              invert_x := false, invert_y := false })] })]
    shell := none }

/-- Counterexample to C8 as stated: on a fresh engine (active app still empty,
a reachable state) `set_workspace` leaves the compiled stick rules `none`,
while the spec-mandated compilation for the current active app resolves the
`common` rules and is not `none`. -/
theorem set_workspace_empty_app_stale :
    (Gamacros.set_workspace Gamacros.new stickProfile).compiled_stick_rules = none ∧
      specCompiledStickRules stickProfile
        (Gamacros.set_workspace Gamacros.new stickProfile).active_app ≠ none := by
  constructor
  · rfl
  · decide

/-- C8 (amended): after `set_workspace(P)`, if the active app is non-empty the
compiled stick rules equal the spec compilation for the current active app
(app rules, else `common`, else none); if the active app is empty they are
left unchanged. -/
theorem set_workspace_rebuilds_compiled (g : Gamacros) (p : Profile) :
    (g.active_app ≠ "" →
      (Gamacros.set_workspace g p).compiled_stick_rules = specCompiledStickRules p g.active_app) ∧
      (g.active_app = "" →
        (Gamacros.set_workspace g p).compiled_stick_rules = g.compiled_stick_rules) := by
  constructor
  · intro h
    unfold Gamacros.set_workspace specCompiledStickRules Gamacros.rulesLookup
    rw [if_pos h]
    cases halg : alGet p.rules g.active_app with
    | some r => simp [halg]
    | none =>
      cases halg2 : alGet p.rules "common" with
      | some r => simp [halg, halg2]
      | none => simp [halg, halg2]
  · intro h
    unfold Gamacros.set_workspace
    rw [if_neg (fun hh => hh h)]

/-- Witness for C8 (amended) at concrete inputs: with active app `x` the
rebuild happens and matches the spec compilation; with the empty active app
the compiled rules stay what they were. -/
theorem set_workspace_rebuilds_compiled_witness :
    (Gamacros.set_workspace (Gamacros.set_active_app Gamacros.new "x") stickProfile).compiled_stick_rules =
        specCompiledStickRules stickProfile (Gamacros.set_active_app Gamacros.new "x").active_app ∧
      (Gamacros.set_workspace Gamacros.new stickProfile).compiled_stick_rules =
        Gamacros.new.compiled_stick_rules :=
  ⟨(set_workspace_rebuilds_compiled (Gamacros.set_active_app Gamacros.new "x") stickProfile).1
      (by decide),
   (set_workspace_rebuilds_compiled Gamacros.new stickProfile).2 rfl⟩

/- ### General lemmas about the chord resolver and the repeat drain -/

theorem foldl_guard_filter {α β : Type} (f : β → α → β) (q : α → Bool) :
    ∀ (l : List α) (init : β),
      l.foldl (fun acc x => if q x then f acc x else acc) init = (l.filter q).foldl f init := by
  intro l
  induction l with
  | nil => intro init; rfl
  | cons e es ih =>
    intro init
    cases he : q e <;> simp [List.filter_cons, he, ih]

/-- Pass B skips exactly the rules outside the firing-with-max-cardinality
filter: the `continue` in the source loop is list filtering. -/
theorem passB_eq_filter (rules : ButtonRules) (reps : RepTable) (now : Nat) (id : ControllerId)
    (button : Button) (rumble : Bool) (prev nowp : Bitmask) (phase : ButtonPhase) (mb : Nat) :
    Gamacros.passB rules reps now id button rumble prev nowp phase mb =
      (rules.filter
          (fun tr => Gamacros.ruleFires prev nowp phase tr.1 && tr.1.card == mb)).foldl
        (fun acc tr => Gamacros.execRule now id button rumble phase acc tr.2) (reps, []) := by
  unfold Gamacros.passB
  have hstep :
      (fun (acc : RepTable × List Action) (tr : Bitmask × ButtonRule) =>
        if !Gamacros.ruleFires prev nowp phase tr.1 || tr.1.card != mb then acc
        else Gamacros.execRule now id button rumble phase acc tr.2)
      = (fun (acc : RepTable × List Action) (tr : Bitmask × ButtonRule) =>
        if Gamacros.ruleFires prev nowp phase tr.1 && tr.1.card == mb then
          Gamacros.execRule now id button rumble phase acc tr.2
        else acc) := by
    funext acc tr
    by_cases hq : Gamacros.ruleFires prev nowp phase tr.1 = true
    · by_cases hc : tr.1.card = mb
      · simp [hq, hc]
      · simp [hq, hc]
    · have hq' : Gamacros.ruleFires prev nowp phase tr.1 = false := by
        simpa using hq
      simp [hq']
  rw [hstep, foldl_guard_filter]

theorem ruleFires_pressed (prev t : Bitmask) (b : Button) :
    Gamacros.ruleFires prev (Gamacros.applyPhase .Pressed prev b) .Pressed t = true ↔
      (¬ t ⊆ prev ∧ t ⊆ insert b prev) := by
  have hmono : t ⊆ prev → t ⊆ insert b prev := fun hs => hs.trans (Finset.subset_insert b prev)
  simp only [Gamacros.ruleFires, Gamacros.applyPhase, bitmaskSuperset]
  rw [bne_iff_ne, ne_eq, decide_eq_decide]
  tauto

theorem ruleFires_released (prev t : Bitmask) (b : Button) :
    Gamacros.ruleFires prev (Gamacros.applyPhase .Released prev b) .Released t = true ↔
      (t ⊆ prev ∧ ¬ t ⊆ prev.erase b) := by
  simp [Gamacros.ruleFires, Gamacros.applyPhase, bitmaskSuperset]

/-- A chord can only fire on the transition of a button it contains. -/
theorem ruleFires_mem {prev : Bitmask} {b : Button} {ph : ButtonPhase} {t : Bitmask}
    (h : Gamacros.ruleFires prev (Gamacros.applyPhase ph prev b) ph t = true) : b ∈ t := by
  by_contra hb
  cases ph with
  | Pressed =>
    rcases (ruleFires_pressed prev t b).mp h with ⟨hn, hs⟩
    refine hn (fun x hx => ?_)
    rcases Finset.mem_insert.mp (hs hx) with h1 | h1
    · exact absurd (h1 ▸ hx) hb
    · exact h1
  | Released =>
    rcases (ruleFires_released prev t b).mp h with ⟨hs, hn⟩
    exact hn (Finset.subset_erase.mpr ⟨hs, hb⟩)

/-- A firing chord is nonempty. -/
theorem ruleFires_nonempty {prev : Bitmask} {b : Button} {ph : ButtonPhase} {t : Bitmask}
    (h : Gamacros.ruleFires prev (Gamacros.applyPhase ph prev b) ph t = true) : t.Nonempty :=
  ⟨b, ruleFires_mem h⟩

theorem maxFire_foldl_init_le (prev nowp : Bitmask) (phase : ButtonPhase) :
    ∀ (l : ButtonRules) (init : Nat),
      init ≤ l.foldl
        (fun max_bits tr =>
          if Gamacros.ruleFires prev nowp phase tr.1 then
            (if tr.1.card > max_bits then tr.1.card else max_bits)
          else max_bits) init := by
  intro l
  induction l with
  | nil => intro init; exact le_refl _
  | cons e es ih =>
    intro init
    rw [List.foldl_cons]
    refine le_trans ?_ (ih _)
    by_cases hf : Gamacros.ruleFires prev nowp phase e.1 = true
    · rw [if_pos hf]
      by_cases hc : e.1.card > init
      · rw [if_pos hc]
        exact Nat.le_of_lt hc
      · rw [if_neg hc]
    · rw [if_neg hf]

/-- The first pass's result bounds the cardinality of every firing chord. -/
theorem maxFireBits_ge_of_fires (prev nowp : Bitmask) (phase : ButtonPhase)
    (l : ButtonRules) (tr : Bitmask × ButtonRule) (hmem : tr ∈ l)
    (hf : Gamacros.ruleFires prev nowp phase tr.1 = true) :
    tr.1.card ≤ Gamacros.maxFireBits l prev nowp phase := by
  unfold Gamacros.maxFireBits
  suffices h : ∀ (l : ButtonRules) (init : Nat), tr ∈ l → tr.1.card ≤ l.foldl
      (fun max_bits tr =>
        if Gamacros.ruleFires prev nowp phase tr.1 then
          (if tr.1.card > max_bits then tr.1.card else max_bits)
        else max_bits) init from h l 0 hmem
  intro l
  induction l with
  | nil => intro init hm; cases hm
  | cons e es ih =>
    intro init hm
    rw [List.foldl_cons]
    rcases List.mem_cons.mp hm with he | he
    · subst he
      refine le_trans ?_ (maxFire_foldl_init_le prev nowp phase es _)
      rw [if_pos hf]
      by_cases hc : tr.1.card > init
      · rw [if_pos hc]
      · rw [if_neg hc]
        exact Nat.le_of_not_lt hc
    · exact ih _ he

/-- A nonzero first-pass result is attained by some firing chord. -/
theorem maxFireBits_attained (prev nowp : Bitmask) (phase : ButtonPhase) (l : ButtonRules)
    (h : Gamacros.maxFireBits l prev nowp phase ≠ 0) :
    ∃ tr ∈ l, Gamacros.ruleFires prev nowp phase tr.1 = true ∧
      tr.1.card = Gamacros.maxFireBits l prev nowp phase := by
  unfold Gamacros.maxFireBits at *
  suffices haux : ∀ (l : ButtonRules) (init : Nat),
      l.foldl
        (fun max_bits tr =>
          if Gamacros.ruleFires prev nowp phase tr.1 then
            (if tr.1.card > max_bits then tr.1.card else max_bits)
          else max_bits) init = init ∨
      ∃ tr ∈ l, Gamacros.ruleFires prev nowp phase tr.1 = true ∧
        tr.1.card = l.foldl
          (fun max_bits tr =>
            if Gamacros.ruleFires prev nowp phase tr.1 then
              (if tr.1.card > max_bits then tr.1.card else max_bits)
            else max_bits) init by
    rcases haux l 0 with h0 | h0
    · exact absurd h0 h
    · exact h0
  intro l
  induction l with
  | nil => intro init; exact Or.inl rfl
  | cons e es ih =>
    intro init
    have hfold : (e :: es).foldl
        (fun max_bits tr =>
          if Gamacros.ruleFires prev nowp phase tr.1 then
            (if tr.1.card > max_bits then tr.1.card else max_bits)
          else max_bits) init
      = es.foldl
        (fun max_bits tr =>
          if Gamacros.ruleFires prev nowp phase tr.1 then
            (if tr.1.card > max_bits then tr.1.card else max_bits)
          else max_bits)
        (if Gamacros.ruleFires prev nowp phase e.1 then
          (if e.1.card > init then e.1.card else init) else init) := List.foldl_cons ..
    rcases ih (if Gamacros.ruleFires prev nowp phase e.1 then
        (if e.1.card > init then e.1.card else init) else init) with h0 | h0
    · rw [hfold, h0]
      by_cases hf : Gamacros.ruleFires prev nowp phase e.1 = true
      · by_cases hc : e.1.card > init
        · exact Or.inr ⟨e, List.mem_cons_self e es, hf, by rw [if_pos hf, if_pos hc]⟩
        · exact Or.inl (by rw [if_pos hf, if_neg hc])
      · exact Or.inl (by rw [if_neg hf])
    · rcases h0 with ⟨tr, hmem, hfire, hcard⟩
      exact Or.inr ⟨tr, List.mem_cons_of_mem e hmem, hfire, by rw [hfold]; exact hcard⟩

/- ### The repeat drain characterized (`process_button_repeats`) -/

/-- The spec's per-task update (§4.3): a due task emits, marks its delay done
and is rescheduled `interval_ms` later; a task not yet due is untouched. -/
def specRepeatStep (now : Nat) (e : (ControllerId × Button) × ButtonRepeatTask) :
    (ControllerId × Button) × ButtonRepeatTask :=
  if now ≥ e.2.next_fire then
    (e.1, { e.2 with delay_done := true, next_fire := now + e.2.interval_ms })
  else e

/-- The spec's emissions (§4.3): one `KeyTap` of its key per due task, in
table order. -/
def specDueTaps (tbl : RepTable) (now : Nat) : List Action :=
  (tbl.filter (fun e => decide (now ≥ e.2.next_fire))).map (fun e => Action.KeyTap e.2.key)

theorem repeats_foldl_spec (now : Nat) :
    ∀ (l : RepTable) (acc : RepTable × List Action),
      l.foldl
        (fun acc e =>
          if now ≥ e.2.next_fire then
            (acc.1 ++ [(e.1, { e.2 with delay_done := true, next_fire := now + e.2.interval_ms })],
             acc.2 ++ [Action.KeyTap e.2.key])
          else (acc.1 ++ [e], acc.2)) acc
      = (acc.1 ++ l.map (specRepeatStep now), acc.2 ++ specDueTaps l now) := by
  intro l
  induction l with
  | nil => intro acc; simp [specDueTaps]
  | cons e es ih =>
    intro acc
    by_cases hd : now ≥ e.2.next_fire
    · simp [ih, specRepeatStep, specDueTaps, List.filter_cons, hd]
    · simp [ih, specRepeatStep, specDueTaps, List.filter_cons, hd]

/-- `process_button_repeats` emits exactly one `KeyTap` per due task, updates
each due task in place (delay done, next fire pushed by its interval) and
keeps every task in the table. -/
theorem process_button_repeats_spec (g : Gamacros) (now : Nat) :
    Gamacros.process_button_repeats g now =
      ({ g with button_repeats := g.button_repeats.map (specRepeatStep now) },
       specDueTaps g.button_repeats now) := by
  unfold Gamacros.process_button_repeats
  rw [repeats_foldl_spec]
  simp

/-- `on_button_with` under successful resolution: with a workspace, resolved
app rules and a known controller, the call reduces to the remap, the pressed
mutation and the two passes. -/
theorem on_button_with_resolved
    (g : Gamacros) (ws : Profile) (ar : AppRules) (st : ControllerState)
    (now : Nat) (id : ControllerId) (button : Button) (phase : ButtonPhase)
    (hw : g.workspace = some ws)
    (hr : Gamacros.rulesLookup ws.rules g.active_app = some ar)
    (hc : alGet g.controllers id = some st) :
    Gamacros.on_button_with g now id button phase =
      (let b := (alGet st.mapping.mapping button).getD button
       let nowp := Gamacros.applyPhase phase st.pressed b
       let g1 := { g with controllers := alInsert g.controllers id { st with pressed := nowp } }
       let mb := Gamacros.maxFireBits ar.buttons st.pressed nowp phase
       if mb = 0 then (g1, [])
       else
         let r := Gamacros.passB ar.buttons g1.button_repeats now id b st.rumble
           st.pressed nowp phase mb
         ({ g1 with button_repeats := r.1 }, r.2)) := by
  unfold Gamacros.on_button_with
  simp only [hw, hr, hc]

/-!
### C3

Spec claim: when at least one chord fires on a button transition, exactly the
firing rules of maximal cardinality `max_bits` execute, and firing rules of
strictly lower cardinality do not. This is the two-pass resolver of
`gamacros.rs` lines 352-437.
-/

/-- C3 (confirmed): under successful resolution, when some chord fires, the
emissions and the repeat-table effect of `on_button_with` are exactly the fold
of the rule bodies over the list of firing rules whose cardinality equals
`max_bits`, in rule order; and no firing rule of strictly lower cardinality is
among the executed ones. -/
theorem chord_precedence_exact
    (g : Gamacros) (ws : Profile) (ar : AppRules) (st : ControllerState)
    (now : Nat) (id : ControllerId) (button : Button) (phase : ButtonPhase)
    (hw : g.workspace = some ws)
    (hr : Gamacros.rulesLookup ws.rules g.active_app = some ar)
    (hc : alGet g.controllers id = some st)
    (hfire : ∃ tr ∈ ar.buttons,
      Gamacros.ruleFires st.pressed
        (Gamacros.applyPhase phase st.pressed ((alGet st.mapping.mapping button).getD button))
        phase tr.1 = true) :
    let b := (alGet st.mapping.mapping button).getD button
    let nowp := Gamacros.applyPhase phase st.pressed b
    let mb := Gamacros.maxFireBits ar.buttons st.pressed nowp phase
    let executed := ar.buttons.filter
      (fun tr => Gamacros.ruleFires st.pressed nowp phase tr.1 && tr.1.card == mb)
    (Gamacros.on_button_with g now id button phase).2 =
        (executed.foldl (fun acc tr => Gamacros.execRule now id b st.rumble phase acc tr.2)
          (g.button_repeats, [])).2 ∧
      (Gamacros.on_button_with g now id button phase).1.button_repeats =
        (executed.foldl (fun acc tr => Gamacros.execRule now id b st.rumble phase acc tr.2)
          (g.button_repeats, [])).1 ∧
      ∀ tr ∈ ar.buttons, Gamacros.ruleFires st.pressed nowp phase tr.1 = true →
        tr.1.card < mb → tr ∉ executed := by
  intro b nowp mb executed
  have hmb : mb ≠ 0 := by
    rcases hfire with ⟨tr, htr, hf⟩
    have h1 : 0 < tr.1.card := Finset.card_pos.mpr (ruleFires_nonempty hf)
    have h2 := maxFireBits_ge_of_fires st.pressed nowp phase ar.buttons tr htr hf
    omega
  rw [on_button_with_resolved g ws ar st now id button phase hw hr hc]
  simp only [if_neg hmb]
  rw [passB_eq_filter]
  refine ⟨rfl, rfl, ?_⟩
  intro tr _htr hf hlt hmem
  rcases List.mem_filter.mp hmem with ⟨_, hguard⟩
  have hcard : tr.1.card = mb := by
    have h2 := ((Bool.and_eq_true _ _).mp hguard).2
    simpa using h2
  omega

/-- A second shell rule, bound below to the two-button chord A+B. -/
def shellRuleAB : ButtonRule :=
  { action := .Shell "ab", vibrate := none, repeat_delay_ms := none, repeat_interval_ms := none }

/-- The overlapping-chords profile of spec scenario S2. -/
def chordProfile : Profile :=
  { controllers := []
    blacklist := []
    rules := [("common",
      { buttons := [({Button.a}, shellRuleA), ({Button.a, Button.b}, shellRuleAB)]
        sticks := [] })]
    shell := none }

/-- The common rules of `chordProfile`. -/
def arChord : AppRules :=
  { buttons := [({Button.a}, shellRuleA), ({Button.a, Button.b}, shellRuleAB)], sticks := [] }

/-- The engine of scenario S2 after `Pressed A`: button A held. -/
def gChord : Gamacros :=
  (Gamacros.on_button_with
    (Gamacros.add_controller (Gamacros.set_workspace Gamacros.new chordProfile) padInfo)
    0 1 Button.a ButtonPhase.Pressed).1

/-- The controller state held inside `gChord`. -/
def stChord : ControllerState :=
  { mapping := ⟨[]⟩, pressed := {Button.a}, rumble := true, axes := List.replicate 6 0 }

/-- Witness for C3 at scenario S2: pressing B while A is held fires only the
maximal chord A+B, emitting `Shell "ab"` and not re-firing the A rule. -/
theorem chord_precedence_exact_witness :
    (Gamacros.on_button_with gChord 0 1 Button.b ButtonPhase.Pressed).2 = [Action.Shell "ab"] := by
  obtain ⟨h1, _h2, _h3⟩ :=
    chord_precedence_exact gChord chordProfile arChord stChord 0 1 Button.b ButtonPhase.Pressed
      (by decide) (by decide) (by decide)
      ⟨({Button.a, Button.b}, shellRuleAB), by decide, by decide⟩
  exact h1.trans (by decide)

/-!
### C6

Spec claim: a `Keystroke(k)` rule firing on `Pressed` emits `KeyTap(k)` and
inserts a repeat task at `(id, remapped_button)` with
`interval_ms = repeat_interval_ms ∨ 50`, `next_fire = now + repeat_delay_ms ∨ 400`
and `delay_done = false`; and `process_button_repeats(now)` taps every due
task, marks its delay done, pushes `next_fire` to `now + interval_ms` and
keeps the task in the table.
-/

/-- C6 (confirmed): when the single executed rule of a `Pressed` transition is
`Keystroke k`, `on_button_with` inserts the spec's repeat task at the remapped
key and emits its optional rumble followed by `KeyTap k`; and
`process_button_repeats` behaves exactly as the spec's per-task drain. -/
theorem keystroke_schedules_and_repeats
    (g : Gamacros) (ws : Profile) (ar : AppRules) (st : ControllerState)
    (now : Nat) (id : ControllerId) (button : Button) (t : Bitmask) (rule : ButtonRule)
    (k : KeyCombo)
    (hw : g.workspace = some ws)
    (hr : Gamacros.rulesLookup ws.rules g.active_app = some ar)
    (hc : alGet g.controllers id = some st)
    (hfilter : ar.buttons.filter
        (fun tr => Gamacros.ruleFires st.pressed
            (Gamacros.applyPhase .Pressed st.pressed ((alGet st.mapping.mapping button).getD button))
            .Pressed tr.1
          && tr.1.card == Gamacros.maxFireBits ar.buttons st.pressed
            (Gamacros.applyPhase .Pressed st.pressed ((alGet st.mapping.mapping button).getD button))
            .Pressed)
      = [(t, rule)])
    (hk : rule.action = ButtonAction.Keystroke k) :
    let b := (alGet st.mapping.mapping button).getD button
    (Gamacros.on_button_with g now id button .Pressed).1.button_repeats =
        alInsert g.button_repeats (id, b)
          { key := k
            interval_ms := rule.repeat_interval_ms.getD DEFAULT_REPEAT_INTERVAL_MS
            next_fire := now + rule.repeat_delay_ms.getD DEFAULT_REPEAT_DELAY_MS
            delay_done := false } ∧
      (Gamacros.on_button_with g now id button .Pressed).2 =
        (match rule.vibrate with
         | some ms => if st.rumble then [Action.Rumble id ms] else []
         | none => []) ++ [Action.KeyTap k] ∧
      ∀ (g' : Gamacros) (t' : Nat),
        Gamacros.process_button_repeats g' t' =
          ({ g' with button_repeats := g'.button_repeats.map (specRepeatStep t') },
           specDueTaps g'.button_repeats t') := by
  intro b
  have hmem : (t, rule) ∈ ar.buttons.filter
      (fun tr => Gamacros.ruleFires st.pressed
          (Gamacros.applyPhase .Pressed st.pressed b) .Pressed tr.1
        && tr.1.card == Gamacros.maxFireBits ar.buttons st.pressed
          (Gamacros.applyPhase .Pressed st.pressed b) .Pressed) := by
    rw [hfilter]
    exact List.mem_singleton_self _
  rcases List.mem_filter.mp hmem with ⟨_, hguard⟩
  rcases (Bool.and_eq_true _ _).mp hguard with ⟨hfires, hbits⟩
  have hcard : t.card = Gamacros.maxFireBits ar.buttons st.pressed
      (Gamacros.applyPhase .Pressed st.pressed b) .Pressed := by
    simpa using hbits
  have hmb : Gamacros.maxFireBits ar.buttons st.pressed
      (Gamacros.applyPhase .Pressed st.pressed b) .Pressed ≠ 0 := by
    have h1 : 0 < t.card := Finset.card_pos.mpr (ruleFires_nonempty hfires)
    omega
  refine ⟨?_, ?_, fun g' t' => process_button_repeats_spec g' t'⟩
  · rw [on_button_with_resolved g ws ar st now id button .Pressed hw hr hc]
    simp only [if_neg hmb]
    rw [passB_eq_filter, hfilter]
    simp [Gamacros.execRule, hk]
  · rw [on_button_with_resolved g ws ar st now id button .Pressed hw hr hc]
    simp only [if_neg hmb]
    rw [passB_eq_filter, hfilter]
    simp [Gamacros.execRule, hk]

/-- The engine of scenario S1 before the press: keystroke profile loaded,
controller added, default (empty) active app resolving to `common`. -/
def gKey : Gamacros :=
  Gamacros.add_controller (Gamacros.set_workspace Gamacros.new keystrokeProfile) padInfo

/-- The controller state held inside `gKey`. -/
def stKey : ControllerState :=
  { mapping := ⟨[]⟩, pressed := ∅, rumble := true, axes := List.replicate 6 0 }

/-- The common rules of `keystrokeProfile`. -/
def arKey : AppRules :=
  { buttons := [({Button.a}, keyRuleX)], sticks := [] }

/-- Witness for C6 at scenario S1: pressing A at t=0 schedules the default
task (interval 50, first fire at 400, delay pending) and taps once; an empty
repeat table drains to nothing. -/
theorem keystroke_schedules_and_repeats_witness :
    (Gamacros.on_button_with gKey 0 1 Button.a ButtonPhase.Pressed).1.button_repeats =
        [((1, Button.a), { key := ⟨"x"⟩, interval_ms := 50, next_fire := 400, delay_done := false })] ∧
      (Gamacros.on_button_with gKey 0 1 Button.a ButtonPhase.Pressed).2 = [Action.KeyTap ⟨"x"⟩] ∧
      Gamacros.process_button_repeats Gamacros.new 0 = (Gamacros.new, []) := by
  obtain ⟨h1, h2, h3⟩ :=
    keystroke_schedules_and_repeats gKey keystrokeProfile arKey stKey 0 1 Button.a
      {Button.a} keyRuleX ⟨"x"⟩ (by decide) (by decide) (by decide) (by decide) rfl
  exact ⟨h1.trans (by decide), h2.trans (by decide), (h3 Gamacros.new 0).trans (by decide)⟩

/-!
### C4

Spec claim: once the Released event for a button whose press scheduled a
Keystroke repeat task is processed, the task is removed — regardless of
`set_active_app` / `set_profile` calls in between. The removal (`gamacros.rs`
lines 425-435) only happens when the Released transition itself fires a
max-cardinality Keystroke rule under the rules in effect at release time, so
an app switch to rules without that binding orphans the task.
-/

/-- Released-phase rule bodies never add a repeat task, and once the task at
`(id, b)` is gone (or some processed rule is a Keystroke, which removes it),
it stays gone through the rest of the pass. -/
theorem released_fold_removes (now : Nat) (id : ControllerId) (b : Button) (rumble : Bool) :
    ∀ (l : List (Bitmask × ButtonRule)) (acc : RepTable × List Action),
      ((∃ tr ∈ l, ∃ k, tr.2.action = ButtonAction.Keystroke k) ∨ alGet acc.1 (id, b) = none) →
      alGet
        ((l.foldl (fun acc tr => Gamacros.execRule now id b rumble .Released acc tr.2) acc).1)
        (id, b) = none := by
  intro l
  induction l with
  | nil =>
    intro acc h
    rcases h with ⟨tr, hmem, _⟩ | h
    · cases hmem
    · exact h
  | cons e es ih =>
    intro acc h
    rw [List.foldl_cons]
    have hstep : ∀ acc' : RepTable × List Action,
        alGet acc'.1 (id, b) = none →
        alGet (Gamacros.execRule now id b rumble .Released acc' e.2).1 (id, b) = none := by
      intro acc' hn
      unfold Gamacros.execRule
      cases e.2.action with
      | Keystroke k => simpa using alGet_alRemove_self acc'.1 (id, b)
      | TapKeystroke k => simpa using hn
      | Macros m => simpa using hn
      | Shell s => simpa using hn
      | MouseClick mb ct => simpa using hn
      | RawModifier key => simpa using hn
    rcases h with ⟨tr, hmem, hk⟩ | hnone
    · rcases List.mem_cons.mp hmem with he | he
      · subst he
        refine ih _ (Or.inr ?_)
        rcases hk with ⟨k, hk⟩
        unfold Gamacros.execRule
        rw [hk]
        simpa using alGet_alRemove_self acc.1 (id, b)
      · exact ih _ (Or.inl ⟨tr, he, hk⟩)
    · exact ih _ (Or.inr (hstep acc hnone))

/-- C4 (amended): if, when the Released event is processed, the rules then in
effect still fire a max-cardinality Keystroke rule for the transition (in
particular when no intervening `set_active_app` / `set_workspace` changed
them), the repeat task at `(id, remapped button)` is removed, and any later
`process_button_repeats` emits only taps of tasks still in the table. -/
theorem release_cancels_repeat_when_rule_fires
    (g : Gamacros) (ws : Profile) (ar : AppRules) (st : ControllerState)
    (now : Nat) (id : ControllerId) (button : Button)
    (hw : g.workspace = some ws)
    (hr : Gamacros.rulesLookup ws.rules g.active_app = some ar)
    (hc : alGet g.controllers id = some st)
    (hex : ∃ t rule, (t, rule) ∈ ar.buttons ∧
      Gamacros.ruleFires st.pressed
        (Gamacros.applyPhase .Released st.pressed ((alGet st.mapping.mapping button).getD button))
        .Released t = true ∧
      t.card = Gamacros.maxFireBits ar.buttons st.pressed
        (Gamacros.applyPhase .Released st.pressed ((alGet st.mapping.mapping button).getD button))
        .Released ∧
      (∃ k, rule.action = ButtonAction.Keystroke k)) :
    let b := (alGet st.mapping.mapping button).getD button
    alGet (Gamacros.on_button_with g now id button .Released).1.button_repeats (id, b) = none ∧
      ∀ t' : Nat,
        (Gamacros.process_button_repeats (Gamacros.on_button_with g now id button .Released).1 t').2 =
          specDueTaps (Gamacros.on_button_with g now id button .Released).1.button_repeats t' := by
  intro b
  rcases hex with ⟨t, rule, hmem, hfires, hcard, hks⟩
  have hmb : Gamacros.maxFireBits ar.buttons st.pressed
      (Gamacros.applyPhase .Released st.pressed ((alGet st.mapping.mapping button).getD button))
      .Released ≠ 0 := by
    have h1 : 0 < t.card := Finset.card_pos.mpr (ruleFires_nonempty hfires)
    omega
  constructor
  · rw [on_button_with_resolved g ws ar st now id button .Released hw hr hc]
    simp only [if_neg hmb]
    rw [passB_eq_filter]
    refine released_fold_removes now id b st.rumble _ _ (Or.inl ⟨(t, rule), ?_, hks⟩)
    refine List.mem_filter.mpr ⟨hmem, ?_⟩
    rw [Bool.and_eq_true]
    exact ⟨hfires, by simpa using hcard⟩
  · intro t'
    rw [process_button_repeats_spec]

/-- A profile with the keystroke binding only under `app1`; `app2` has rules
with no button bindings at all. -/
def appSwitchProfile : Profile :=
  { controllers := []
    blacklist := []
    rules := [("app1", arKey), ("app2", { buttons := [], sticks := [] })]
    shell := none }

/-- The engine after: load `appSwitchProfile`, add the controller, activate
`app1`, press A (scheduling the repeat task), switch to `app2`, release A. -/
def gSwitch : Gamacros :=
  (Gamacros.on_button_with
    (Gamacros.set_active_app
      (Gamacros.on_button_with
        (Gamacros.set_active_app
          (Gamacros.add_controller (Gamacros.set_workspace Gamacros.new appSwitchProfile) padInfo)
          "app1")
        0 1 Button.a ButtonPhase.Pressed).1
      "app2")
    10 1 Button.a ButtonPhase.Released).1

/-- Counterexample to C4 as stated: after the Released event was processed
(under `app2`, whose rules fire nothing), the repeat task scheduled by the
press is still in the table and the next drain still emits its `KeyTap` —
the cancellation is not independent of intervening `set_active_app` calls. -/
theorem release_after_app_change_keeps_task :
    (alGet gSwitch.button_repeats (1, Button.a)).isSome = true ∧
      (Gamacros.process_button_repeats gSwitch 400).2 = [Action.KeyTap ⟨"x"⟩] := by
  constructor
  · decide
  · decide

/-- The engine of scenario S1 after the press of A at t=0. -/
def gKeyPressed : Gamacros :=
  (Gamacros.on_button_with gKey 0 1 Button.a ButtonPhase.Pressed).1

/-- The controller state held inside `gKeyPressed`. -/
def stKeyPressed : ControllerState :=
  { mapping := ⟨[]⟩, pressed := {Button.a}, rumble := true, axes := List.replicate 6 0 }

/-- Witness for C4 (amended) at scenario S1: releasing A under the unchanged
rules removes the task, and the subsequent drain of the (now empty) table
emits nothing. -/
theorem release_cancels_repeat_witness :
    alGet (Gamacros.on_button_with gKeyPressed 10 1 Button.a ButtonPhase.Released).1.button_repeats
        (1, Button.a) = none ∧
      (Gamacros.process_button_repeats
        (Gamacros.on_button_with gKeyPressed 10 1 Button.a ButtonPhase.Released).1 400).2 = [] := by
  obtain ⟨h1, h2⟩ :=
    release_cancels_repeat_when_rule_fires gKeyPressed keystrokeProfile arKey stKeyPressed
      10 1 Button.a (by decide) (by decide) (by decide)
      ⟨{Button.a}, keyRuleX, by decide, by decide, by decide, ⟨⟨"x"⟩, rfl⟩⟩
  exact ⟨h1, (h2 400).trans (by decide)⟩

/-!
### C5

Spec claim: at every point of any event sequence, each controller's `pressed`
set is contained in the set of (remapped) buttons ever passed as `Pressed`
minus those since passed as `Released`. The pressed-set mutation in
`on_button_with` happens only after the workspace / app-rules / controller
lookups succeed, so a `Released` event arriving while no profile is loaded is
dropped entirely and leaves a stale button in `pressed`.
-/

/-- The engine-mutating external events of the spec's data flow (§2); `now`
accompanies `on_button` the way the embedded clock parameter does. -/
inductive Ev where
  | add_controller (info : ControllerInfo)
  | remove_controller (id : ControllerId)
  | set_active_app (app : String)
  | set_workspace (p : Profile)
  | remove_workspace
  | on_button (now : Nat) (id : ControllerId) (button : Button) (phase : ButtonPhase)
  | on_axis_motion (id : ControllerId) (axis : CtrlAxis) (value : Rat)
  deriving DecidableEq

/-- One engine step per event (emissions discarded; C5 is about state). -/
def stepEv (g : Gamacros) : Ev → Gamacros
  | .add_controller info => Gamacros.add_controller g info
  | .remove_controller id => Gamacros.remove_controller g id
  | .set_active_app app => Gamacros.set_active_app g app
  | .set_workspace p => Gamacros.set_workspace g p
  | .remove_workspace => Gamacros.remove_workspace g
  | .on_button now id b ph => (Gamacros.on_button_with g now id b ph).1
  | .on_axis_motion id ax v => Gamacros.on_axis_motion g id ax v

/-- Run a whole event trace. -/
def runTrace (g : Gamacros) : List Ev → Gamacros
  | [] => g
  | e :: es => runTrace (stepEv g e) es

/-- The remap the engine applies to a button of controller `cid` in state `g`
(identity when the controller is unknown). -/
def remapOf (g : Gamacros) (cid : ControllerId) (b : Button) : Button :=
  match alGet g.controllers cid with
  | some st => (alGet st.mapping.mapping b).getD b
  | none => b

/-- The claim's right-hand side, one event at a time: remapped buttons passed
as `Pressed` enter the set, those passed as `Released` leave it. -/
def heldStep (cid : ControllerId) (g : Gamacros) (rhs : Finset Button) : Ev → Finset Button
  | .on_button _ id b ph =>
    if id = cid then
      match ph with
      | .Pressed => insert (remapOf g cid b) rhs
      | .Released => rhs.erase (remapOf g cid b)
    else rhs
  | _ => rhs

/-- The claim's right-hand side folded along a trace. -/
def heldRun (cid : ControllerId) (g : Gamacros) (rhs : Finset Button) : List Ev → Finset Button
  | [] => rhs
  | e :: es => heldRun cid (stepEv g e) (heldStep cid g rhs e) es

/-- The pressed set the engine holds for `cid` (empty when unknown). -/
def pressedOf (g : Gamacros) (cid : ControllerId) : Finset Button :=
  ((alGet g.controllers cid).map (fun st => st.pressed)).getD ∅

/-- Whether `on_button` would get past its workspace and app-rules lookups. -/
def resolvableB (g : Gamacros) : Bool :=
  match g.workspace with
  | some ws => (Gamacros.rulesLookup ws.rules g.active_app).isSome
  | none => false

/-- The amended claim's side condition on one event: a `Released` event for a
known controller `cid` must arrive while a profile is loaded and the app rules
resolve (otherwise `on_button` drops it before the pressed-set update). -/
def okEv (cid : ControllerId) (g : Gamacros) : Ev → Bool
  | .on_button _ id _ .Released =>
    if id = cid then !(alGet g.controllers cid).isSome || resolvableB g
    else true
  | _ => true

/-- The side condition along a trace. -/
def okTrace (cid : ControllerId) (g : Gamacros) : List Ev → Bool
  | [] => true
  | e :: es => okEv cid g e && okTrace cid (stepEv g e) es

theorem on_button_with_no_workspace (g : Gamacros) (now : Nat) (id : ControllerId)
    (b : Button) (ph : ButtonPhase) (hw : g.workspace = none) :
    Gamacros.on_button_with g now id b ph = (g, []) := by
  unfold Gamacros.on_button_with
  rw [hw]

theorem on_button_with_no_rules (g : Gamacros) (ws : Profile) (now : Nat) (id : ControllerId)
    (b : Button) (ph : ButtonPhase) (hw : g.workspace = some ws)
    (hr : Gamacros.rulesLookup ws.rules g.active_app = none) :
    Gamacros.on_button_with g now id b ph = (g, []) := by
  unfold Gamacros.on_button_with
  rw [hw]
  simp only [hr]

theorem on_button_with_unknown (g : Gamacros) (ws : Profile) (ar : AppRules) (now : Nat)
    (id : ControllerId) (b : Button) (ph : ButtonPhase) (hw : g.workspace = some ws)
    (hr : Gamacros.rulesLookup ws.rules g.active_app = some ar)
    (hc : alGet g.controllers id = none) :
    Gamacros.on_button_with g now id b ph = (g, []) := by
  unfold Gamacros.on_button_with
  rw [hw]
  simp only [hr, hc]

theorem on_button_with_controllers (g : Gamacros) (ws : Profile) (ar : AppRules)
    (st : ControllerState) (now : Nat) (id : ControllerId) (button : Button) (ph : ButtonPhase)
    (hw : g.workspace = some ws)
    (hr : Gamacros.rulesLookup ws.rules g.active_app = some ar)
    (hc : alGet g.controllers id = some st) :
    (Gamacros.on_button_with g now id button ph).1.controllers =
      alInsert g.controllers id
        { st with
          pressed := (Gamacros.applyPhase ph st.pressed
            ((alGet st.mapping.mapping button).getD button)) } := by
  rw [on_button_with_resolved g ws ar st now id button ph hw hr hc]
  by_cases hmb : Gamacros.maxFireBits ar.buttons st.pressed
      (Gamacros.applyPhase ph st.pressed ((alGet st.mapping.mapping button).getD button)) ph = 0
  · simp only [if_pos hmb]
  · simp only [if_neg hmb]

theorem set_active_app_controllers (g : Gamacros) (app : String) :
    (Gamacros.set_active_app g app).controllers = g.controllers := by
  unfold Gamacros.set_active_app
  by_cases h : g.active_app = app
  · rw [if_pos h]
  · rw [if_neg h]
    cases g.workspace <;> simp

theorem set_workspace_controllers (g : Gamacros) (p : Profile) :
    (Gamacros.set_workspace g p).controllers = g.controllers := by
  unfold Gamacros.set_workspace
  by_cases h : g.active_app ≠ ""
  · simp only [if_pos h]
    cases Gamacros.rulesLookup p.rules g.active_app <;> simp
  · simp only [if_neg h]

theorem pressedOf_congr (g g' : Gamacros) (cid : ControllerId)
    (h : g'.controllers = g.controllers) : pressedOf g' cid = pressedOf g cid := by
  unfold pressedOf
  rw [h]

theorem pressedOf_add_controller (g : Gamacros) (info : ControllerInfo) (cid : ControllerId) :
    pressedOf (Gamacros.add_controller g info) cid =
      if info.id = cid then ∅ else pressedOf g cid := by
  unfold pressedOf Gamacros.add_controller
  by_cases h : info.id = cid
  · subst h
    simp [alGet_alInsert_self]
  · rw [if_neg h]
    simp only [alGet_alInsert_ne _ _ _ _ h]

theorem pressedOf_remove_controller (g : Gamacros) (id : ControllerId) (cid : ControllerId) :
    pressedOf (Gamacros.remove_controller g id) cid =
      if id = cid then ∅ else pressedOf g cid := by
  unfold pressedOf Gamacros.remove_controller
  by_cases h : id = cid
  · rw [if_pos h]
    subst h
    rw [alGet_alRemove_self]
    rfl
  · rw [if_neg h]
    rw [alGet_alRemove_ne _ _ _ h]

theorem pressedOf_on_axis_motion (g : Gamacros) (id : ControllerId) (ax : CtrlAxis) (v : Rat)
    (cid : ControllerId) :
    pressedOf (Gamacros.on_axis_motion g id ax v) cid = pressedOf g cid := by
  unfold Gamacros.on_axis_motion
  cases hc : alGet g.controllers id with
  | none => rfl
  | some st =>
    unfold pressedOf
    by_cases h : id = cid
    · subst h
      rw [alGet_alInsert_self, hc]
      rfl
    · rw [alGet_alInsert_ne _ _ _ _ h]

/-- One step preserves the containment of `pressed` in the ever-pressed-minus
released set, under the amended side condition. -/
theorem pressed_subset_step (cid : ControllerId) (g : Gamacros) (rhs : Finset Button) (e : Ev)
    (hsub : pressedOf g cid ⊆ rhs) (hok : okEv cid g e = true) :
    pressedOf (stepEv g e) cid ⊆ heldStep cid g rhs e := by
  cases e with
  | add_controller info =>
    show pressedOf (Gamacros.add_controller g info) cid ⊆ rhs
    rw [pressedOf_add_controller]
    by_cases h : info.id = cid
    · rw [if_pos h]; exact Finset.empty_subset rhs
    · rw [if_neg h]; exact hsub
  | remove_controller id =>
    show pressedOf (Gamacros.remove_controller g id) cid ⊆ rhs
    rw [pressedOf_remove_controller]
    by_cases h : id = cid
    · rw [if_pos h]; exact Finset.empty_subset rhs
    · rw [if_neg h]; exact hsub
  | set_active_app app =>
    show pressedOf (Gamacros.set_active_app g app) cid ⊆ rhs
    rw [pressedOf_congr _ _ _ (set_active_app_controllers g app)]
    exact hsub
  | set_workspace p =>
    show pressedOf (Gamacros.set_workspace g p) cid ⊆ rhs
    rw [pressedOf_congr _ _ _ (set_workspace_controllers g p)]
    exact hsub
  | remove_workspace =>
    exact hsub
  | on_axis_motion id ax v =>
    show pressedOf (Gamacros.on_axis_motion g id ax v) cid ⊆ rhs
    rw [pressedOf_on_axis_motion]
    exact hsub
  | on_button now id b ph =>
    show pressedOf (Gamacros.on_button_with g now id b ph).1 cid ⊆ heldStep cid g rhs _
    by_cases hid : id = cid
    · subst hid
      cases hw : g.workspace with
      | none =>
        rw [on_button_with_no_workspace g now id b ph hw]
        cases ph with
        | Pressed =>
          simp only [heldStep, if_pos rfl]
          exact hsub.trans (Finset.subset_insert _ rhs)
        | Released =>
          cases hc : alGet g.controllers id with
          | none =>
            have hp : pressedOf g id = ∅ := by unfold pressedOf; rw [hc]; rfl
            rw [hp]
            exact Finset.empty_subset _
          | some st =>
            simp [okEv, hc, resolvableB, hw] at hok
      | some ws =>
        cases hr : Gamacros.rulesLookup ws.rules g.active_app with
        | none =>
          rw [on_button_with_no_rules g ws now id b ph hw hr]
          cases ph with
          | Pressed =>
            simp only [heldStep, if_pos rfl]
            exact hsub.trans (Finset.subset_insert _ rhs)
          | Released =>
            cases hc : alGet g.controllers id with
            | none =>
              have hp : pressedOf g id = ∅ := by unfold pressedOf; rw [hc]; rfl
              rw [hp]
              exact Finset.empty_subset _
            | some st =>
              simp [okEv, hc, resolvableB, hw, hr] at hok
        | some ar =>
          cases hc : alGet g.controllers id with
          | none =>
            rw [on_button_with_unknown g ws ar now id b ph hw hr hc]
            have hp : pressedOf g id = ∅ := by unfold pressedOf; rw [hc]; rfl
            rw [hp]
            cases ph with
            | Pressed => exact Finset.empty_subset _
            | Released => exact Finset.empty_subset _
          | some st =>
            have hps : pressedOf g id = st.pressed := by unfold pressedOf; rw [hc]; rfl
            have hmap : remapOf g id b = (alGet st.mapping.mapping b).getD b := by
              unfold remapOf; rw [hc]
            have hcc := on_button_with_controllers g ws ar st now id b ph hw hr hc
            have hnew : pressedOf (Gamacros.on_button_with g now id b ph).1 id =
                Gamacros.applyPhase ph st.pressed ((alGet st.mapping.mapping b).getD b) := by
              unfold pressedOf
              rw [hcc, alGet_alInsert_self]
              rfl
            rw [hnew]
            cases ph with
            | Pressed =>
              simp only [heldStep, if_pos rfl, hmap, Gamacros.applyPhase]
              exact Finset.insert_subset_insert _ (hps ▸ hsub)
            | Released =>
              simp only [heldStep, if_pos rfl, hmap, Gamacros.applyPhase]
              exact Finset.erase_subset_erase _ (hps ▸ hsub)
    · have hcont : (Gamacros.on_button_with g now id b ph).1.controllers = g.controllers ∨
          ∃ st, alGet g.controllers id = some st ∧
            (Gamacros.on_button_with g now id b ph).1.controllers
              = alInsert g.controllers id
                  { st with
                    pressed := (Gamacros.applyPhase ph st.pressed
                      ((alGet st.mapping.mapping b).getD b)) } := by
        cases hw : g.workspace with
        | none => exact Or.inl (by rw [on_button_with_no_workspace g now id b ph hw])
        | some ws =>
          cases hr : Gamacros.rulesLookup ws.rules g.active_app with
          | none => exact Or.inl (by rw [on_button_with_no_rules g ws now id b ph hw hr])
          | some ar =>
            cases hc : alGet g.controllers id with
            | none => exact Or.inl (by rw [on_button_with_unknown g ws ar now id b ph hw hr hc])
            | some st =>
              exact Or.inr ⟨st, rfl, on_button_with_controllers g ws ar st now id b ph hw hr hc⟩
      have hpres : pressedOf (Gamacros.on_button_with g now id b ph).1 cid = pressedOf g cid := by
        rcases hcont with h | ⟨st, _, h⟩
        · exact pressedOf_congr _ _ _ h
        · unfold pressedOf
          rw [h, alGet_alInsert_ne _ _ _ _ hid]
      rw [hpres]
      simp only [heldStep, if_neg hid]
      exact hsub

/-- C5 (amended): starting from any state whose pressed set for `cid` is
contained in `rhs`, and along any event trace whose `Released` events for a
known `cid` always arrive with a loaded profile and resolvable app rules,
the engine's pressed set for `cid` stays contained in the set of remapped
buttons passed as `Pressed` minus those since passed as `Released`. -/
theorem pressed_subset_of_held (cid : ControllerId) (evs : List Ev) (g : Gamacros)
    (rhs : Finset Button) (hsub : pressedOf g cid ⊆ rhs)
    (hok : okTrace cid g evs = true) :
    pressedOf (runTrace g evs) cid ⊆ heldRun cid g rhs evs := by
  induction evs generalizing g rhs with
  | nil => exact hsub
  | cons e es ih =>
    unfold okTrace at hok
    rcases (Bool.and_eq_true _ _).mp hok with ⟨h1, h2⟩
    exact ih (stepEv g e) (heldStep cid g rhs e) (pressed_subset_step cid g rhs e hsub h1) h2

/-- The trace refuting C5 as stated: press A with a profile loaded, drop the
profile, then release A — the release is ignored before the pressed-set
update. -/
def staleReleaseTrace : List Ev :=
  [Ev.set_workspace keystrokeProfile,
   Ev.add_controller padInfo,
   Ev.on_button 0 1 Button.a ButtonPhase.Pressed,
   Ev.remove_workspace,
   Ev.on_button 1 1 Button.a ButtonPhase.Released]

/-- Counterexample to C5 as stated: at the end of `staleReleaseTrace`,
controller 1 still holds A in `pressed`, while the ever-pressed-minus-released
set is empty — the invariant fails without the amended side condition. -/
theorem pressed_invariant_fails_without_workspace :
    ¬ pressedOf (runTrace Gamacros.new staleReleaseTrace) 1 ⊆
        heldRun 1 Gamacros.new ∅ staleReleaseTrace := by
  decide

/-- A trace satisfying the amended side condition: profile stays loaded across
the press and the release. -/
def pairedTrace : List Ev :=
  [Ev.set_workspace keystrokeProfile,
   Ev.add_controller padInfo,
   Ev.on_button 0 1 Button.a ButtonPhase.Pressed,
   Ev.on_button 1 1 Button.a ButtonPhase.Released]

/-- Witness for C5 (amended) on `pairedTrace`, whose side condition holds by
computation. -/
theorem pressed_subset_of_held_witness :
    pressedOf (runTrace Gamacros.new pairedTrace) 1 ⊆ heldRun 1 Gamacros.new ∅ pairedTrace :=
  pressed_subset_of_held 1 pairedTrace Gamacros.new ∅ (by decide) (by decide)

/-!
### C7

Spec claim: over any sequence of Pressed/Released pairs on non-overlapping
chords bound to `RawModifier` rules, the emitted `RawModifierPress` and
`RawModifierRelease` actions balance one-to-one per key. Formalized: for a
controller whose button events run against a rule set of pairwise-disjoint
nonempty chords all bound to `RawModifier` rules, if the pressed set starts
and ends empty, the press count equals the release count for every key.
-/

/-- Whether an action is a raw-modifier binding. -/
def isRawB : ButtonAction → Bool
  | .RawModifier _ => true
  | _ => false

/-- Every rule binds a nonempty chord to a `RawModifier` action. -/
def allRaw (rules : ButtonRules) : Bool :=
  rules.all (fun tr => decide tr.1.Nonempty && isRawB tr.2.action)

/-- The chords are pairwise disjoint (empty pairwise intersections). -/
def pairwiseDisjointB : ButtonRules → Bool
  | [] => true
  | tr :: rest => rest.all (fun tr2 => decide (tr.1 ∩ tr2.1 = ∅)) && pairwiseDisjointB rest

/-- The C7 side condition on a rule set. -/
def rawModRulesOK (rules : ButtonRules) : Bool :=
  allRaw rules && pairwiseDisjointB rules

/-- Number of rules bound to key `k` whose chord is currently contained in the
pressed set: the per-key imbalance the engine owes as releases. -/
def rawContained (rules : ButtonRules) (k : RawModifierKey) (pressed : Bitmask) : Nat :=
  rules.countP
    (fun tr => decide (tr.2.action = ButtonAction.RawModifier k) && decide (tr.1 ⊆ pressed))

theorem allRaw_mem {rules : ButtonRules} (h : allRaw rules = true) {tr : Bitmask × ButtonRule}
    (hmem : tr ∈ rules) : tr.1.Nonempty ∧ ∃ k, tr.2.action = ButtonAction.RawModifier k := by
  have h1 := List.all_eq_true.mp h tr hmem
  rcases (Bool.and_eq_true _ _).mp h1 with ⟨h2, h3⟩
  refine ⟨of_decide_eq_true h2, ?_⟩
  cases hk : tr.2.action with
  | RawModifier key => exact ⟨key, rfl⟩
  | Keystroke k => rw [hk] at h3; cases h3
  | TapKeystroke k => rw [hk] at h3; cases h3
  | Macros m => rw [hk] at h3; cases h3
  | Shell s => rw [hk] at h3; cases h3
  | MouseClick mb ct => rw [hk] at h3; cases h3

theorem pairwiseDisjointB_inter {rules : ButtonRules} (h : pairwiseDisjointB rules = true) :
    ∀ x ∈ rules, ∀ y ∈ rules, x ≠ y → x.1 ∩ y.1 = ∅ := by
  induction rules with
  | nil => intro x hx; cases hx
  | cons e es ih =>
    rcases (Bool.and_eq_true _ _).mp h with ⟨h1, h2⟩
    have hall := List.all_eq_true.mp h1
    intro x hx y hy hne
    rcases List.mem_cons.mp hx with hx1 | hx1
    · rcases List.mem_cons.mp hy with hy1 | hy1
      · exact absurd (hx1.trans hy1.symm) hne
      · subst hx1
        exact of_decide_eq_true (hall y hy1)
    · rcases List.mem_cons.mp hy with hy1 | hy1
      · subst hy1
        have h3 := of_decide_eq_true (hall x hx1)
        rw [Finset.inter_comm] at h3
        exact h3
      · exact ih h2 x hx1 y hy1 hne

/-- Occurrence count of a value in a list, via `Decidable` equality. -/
def occCount {α : Type} [DecidableEq α] (l : List α) (a : α) : Nat :=
  l.countP (fun x => decide (x = a))

theorem occCount_cons_self {α : Type} [DecidableEq α] (l : List α) (a : α) :
    occCount (a :: l) a = occCount l a + 1 := by
  unfold occCount
  rw [List.countP_cons_of_pos _ l (by simp)]

theorem occCount_cons_ne {α : Type} [DecidableEq α] (l : List α) (a e : α) (h : e ≠ a) :
    occCount (e :: l) a = occCount l a := by
  unfold occCount
  rw [List.countP_cons_of_neg _ l (by simp [h])]

theorem occCount_eq_zero {α : Type} [DecidableEq α] (l : List α) (a : α) :
    occCount l a = 0 ↔ a ∉ l := by
  unfold occCount
  rw [List.countP_eq_zero]
  constructor
  · intro h hmem
    exact h a hmem (by simp)
  · intro h x hx
    simp only [decide_eq_true_eq]
    intro hh
    exact h (hh ▸ hx)

theorem pairwiseDisjointB_count_one {rules : ButtonRules} (h : pairwiseDisjointB rules = true)
    {a : Bitmask × ButtonRule} (hmem : a ∈ rules) (hne : a.1.Nonempty) :
    occCount rules a = 1 := by
  induction rules with
  | nil => cases hmem
  | cons e es ih =>
    rcases (Bool.and_eq_true _ _).mp h with ⟨h1, h2⟩
    have hall := List.all_eq_true.mp h1
    by_cases he : e = a
    · subst he
      rw [occCount_cons_self]
      have hnotmem : e ∉ es := by
        intro hmem'
        have hint := of_decide_eq_true (hall e hmem')
        rw [Finset.inter_self] at hint
        rcases hne with ⟨x, hx⟩
        rw [hint] at hx
        cases hx
      rw [(occCount_eq_zero es e).mpr hnotmem]
    · have hmem' : a ∈ es := by
        rcases List.mem_cons.mp hmem with h' | h'
        · exact absurd h'.symm he
        · exact h'
      rw [occCount_cons_ne es a e he, ih h2 hmem']

theorem filter_eq_singleton_of_unique {α : Type} [DecidableEq α] (l : List α) (p : α → Bool)
    (a : α) (ha : a ∈ l) (hp : p a = true) (hu : ∀ x ∈ l, p x = true → x = a)
    (hcount : occCount l a = 1) : l.filter p = [a] := by
  induction l with
  | nil => cases ha
  | cons e es ih =>
    by_cases he : e = a
    · subst he
      rw [occCount_cons_self] at hcount
      have hzero : occCount es e = 0 := by omega
      have hnotmem : e ∉ es := (occCount_eq_zero es e).mp hzero
      rw [List.filter_cons_of_pos hp]
      have hnil : es.filter p = [] := by
        rw [List.filter_eq_nil_iff]
        intro x hx hpx
        exact hnotmem ((hu x (List.mem_cons_of_mem e hx) hpx) ▸ hx)
      rw [hnil]
    · have hpe : p e = false := by
        cases hpe : p e
        · rfl
        · exact absurd (hu e (List.mem_cons_self e es) hpe) he
      rw [List.filter_cons_of_neg (by simp [hpe])]
      refine ih ?_ ?_ ?_
      · rcases List.mem_cons.mp ha with h' | h'
        · exact absurd h'.symm he
        · exact h'
      · intro x hx hpx
        exact hu x (List.mem_cons_of_mem e hx) hpx
      · rwa [occCount_cons_ne es a e he] at hcount

theorem countP_succ_of_flip {α : Type} [DecidableEq α] (l : List α) (p q : α → Bool) (a : α)
    (hc : occCount l a = 1) (hother : ∀ x ∈ l, x ≠ a → p x = q x)
    (hpa : p a = false) (hqa : q a = true) :
    l.countP q = l.countP p + 1 := by
  induction l with
  | nil => simp [occCount] at hc
  | cons e es ih =>
    by_cases he : e = a
    · subst he
      rw [occCount_cons_self] at hc
      have hzero : occCount es e = 0 := by omega
      have hnotmem : e ∉ es := (occCount_eq_zero es e).mp hzero
      have hsame : es.countP p = es.countP q := by
        apply List.countP_congr
        intro x hx
        rw [hother x (List.mem_cons_of_mem e hx) (fun hh => hnotmem (hh ▸ hx))]
      rw [List.countP_cons_of_pos q es hqa, List.countP_cons_of_neg p es (by simp [hpa]), hsame]
    · have hpe : p e = q e := hother e (List.mem_cons_self e es) he
      have hc' : occCount es a = 1 := by
        rwa [occCount_cons_ne es a e he] at hc
      have ihes := ih hc' (fun x hx hne => hother x (List.mem_cons_of_mem e hx) hne)
      cases hqe : q e
      · rw [List.countP_cons_of_neg q es (by simp [hqe]),
          List.countP_cons_of_neg p es (by simp [hpe, hqe]), ihes]
      · rw [List.countP_cons_of_pos q es hqe, List.countP_cons_of_pos p es (by rw [hpe, hqe]),
          ihes]

/-- Containment of a chord is untouched by a transition on which it does not
fire. -/
theorem not_fires_containment (P : Bitmask) (b' : Button) (ph : ButtonPhase) (t : Bitmask)
    (h : Gamacros.ruleFires P (Gamacros.applyPhase ph P b') ph t = false) :
    (t ⊆ Gamacros.applyPhase ph P b') ↔ (t ⊆ P) := by
  cases ph with
  | Pressed =>
    have h' := h
    simp only [Gamacros.ruleFires, Gamacros.applyPhase, bitmaskSuperset] at h'
    rw [bne_eq_false_iff_eq, decide_eq_decide] at h'
    exact (h'.symm)
  | Released =>
    have hmono : t ⊆ P.erase b' → t ⊆ P := fun hs => hs.trans (Finset.erase_subset b' P)
    have h' := h
    simp only [Gamacros.ruleFires, Gamacros.applyPhase, bitmaskSuperset] at h'
    rw [Bool.and_eq_false_iff] at h'
    constructor
    · exact hmono
    · intro hP
      rcases h' with h' | h'
      · exact absurd hP (of_decide_eq_false h')
      · have h2 : decide (t ⊆ P.erase b') = true := by simpa using h'
        exact of_decide_eq_true h2

theorem maxFireBits_zero_of_none (prev nowp : Bitmask) (phase : ButtonPhase) (l : ButtonRules)
    (h : ∀ tr ∈ l, Gamacros.ruleFires prev nowp phase tr.1 = false) :
    Gamacros.maxFireBits l prev nowp phase = 0 := by
  unfold Gamacros.maxFireBits
  induction l with
  | nil => rfl
  | cons e es ih =>
    rw [List.foldl_cons, if_neg (by rw [h e (List.mem_cons_self e es)]; exact Bool.false_ne_true)]
    exact ih (fun tr hm => h tr (List.mem_cons_of_mem e hm))

/-- The optional rumble emission preceding a rule's action on `Pressed`. -/
def vibrActs (id : ControllerId) (rule : ButtonRule) (rumble : Bool) : List Action :=
  match rule.vibrate with
  | some ms => if rumble then [Action.Rumble id ms] else []
  | none => []

theorem vibrActs_count_press (id : ControllerId) (rule : ButtonRule) (rumble : Bool)
    (k : RawModifierKey) : (vibrActs id rule rumble).count (Action.RawModifierPress k) = 0 := by
  unfold vibrActs
  cases rule.vibrate with
  | none => rfl
  | some ms => cases rumble <;> simp

theorem vibrActs_count_release (id : ControllerId) (rule : ButtonRule) (rumble : Bool)
    (k : RawModifierKey) : (vibrActs id rule rumble).count (Action.RawModifierRelease k) = 0 := by
  unfold vibrActs
  cases rule.vibrate with
  | none => rfl
  | some ms => cases rumble <;> simp

/-- One button event against a raw-modifier rule set: the engine state changes
only by the pressed-set update, and the per-key raw-modifier balance equation
is preserved by the emissions. -/
theorem raw_on_button_step
    (g : Gamacros) (ws : Profile) (ar : AppRules) (st : ControllerState)
    (now : Nat) (id : ControllerId) (button : Button) (ph : ButtonPhase)
    (hw : g.workspace = some ws)
    (hr : Gamacros.rulesLookup ws.rules g.active_app = some ar)
    (hc : alGet g.controllers id = some st)
    (hok : rawModRulesOK ar.buttons = true) :
    ∃ acts : List Action,
      Gamacros.on_button_with g now id button ph =
        ({ g with controllers := (alInsert g.controllers id
            { st with
              pressed := (Gamacros.applyPhase ph st.pressed
                ((alGet st.mapping.mapping button).getD button)) }) }, acts) ∧
      ∀ k, acts.count (Action.RawModifierPress k) + rawContained ar.buttons k st.pressed =
        acts.count (Action.RawModifierRelease k) +
          rawContained ar.buttons k
            (Gamacros.applyPhase ph st.pressed
              ((alGet st.mapping.mapping button).getD button)) := by
  rcases (Bool.and_eq_true _ _).mp hok with ⟨hraw, hdisj⟩
  by_cases hfireAny : ∃ tr ∈ ar.buttons,
    Gamacros.ruleFires st.pressed
      (Gamacros.applyPhase ph st.pressed ((alGet st.mapping.mapping button).getD button))
      ph tr.1 = true
  case neg =>
    have hnone : ∀ tr ∈ ar.buttons,
        Gamacros.ruleFires st.pressed
          (Gamacros.applyPhase ph st.pressed ((alGet st.mapping.mapping button).getD button))
          ph tr.1 = false := by
      intro tr hm
      cases hf : Gamacros.ruleFires st.pressed
          (Gamacros.applyPhase ph st.pressed ((alGet st.mapping.mapping button).getD button))
          ph tr.1
      · rfl
      · exact absurd ⟨tr, hm, hf⟩ hfireAny
    have hmb := maxFireBits_zero_of_none st.pressed
      (Gamacros.applyPhase ph st.pressed ((alGet st.mapping.mapping button).getD button))
      ph ar.buttons hnone
    refine ⟨[], ?_, ?_⟩
    · rw [on_button_with_resolved g ws ar st now id button ph hw hr hc]
      simp only [if_pos hmb]
    · intro k
      have hsame : rawContained ar.buttons k st.pressed =
          rawContained ar.buttons k
            (Gamacros.applyPhase ph st.pressed ((alGet st.mapping.mapping button).getD button)) := by
        unfold rawContained
        apply List.countP_congr
        intro tr hm
        have hiff := not_fires_containment st.pressed
          ((alGet st.mapping.mapping button).getD button) ph tr.1 (hnone tr hm)
        simp only [Bool.and_eq_true, decide_eq_true_eq]
        rw [hiff]
      rw [hsame]
      simp
  case pos =>
    obtain ⟨a, hamem, haf⟩ := hfireAny
    obtain ⟨hane, k0, hk0⟩ :
        a.1.Nonempty ∧ ∃ k, a.2.action = ButtonAction.RawModifier k := by
      obtain ⟨h1, h2⟩ := allRaw_mem hraw hamem
      exact ⟨h1, h2⟩
    have huniq : ∀ x ∈ ar.buttons,
        Gamacros.ruleFires st.pressed
          (Gamacros.applyPhase ph st.pressed ((alGet st.mapping.mapping button).getD button))
          ph x.1 = true → x = a := by
      intro x hx hxf
      by_contra hne
      have hint := pairwiseDisjointB_inter hdisj x hx a hamem hne
      have hbx := ruleFires_mem hxf
      have hba := ruleFires_mem haf
      have hmemint : ((alGet st.mapping.mapping button).getD button) ∈ x.1 ∩ a.1 :=
        Finset.mem_inter.mpr ⟨hbx, hba⟩
      rw [hint] at hmemint
      exact Finset.not_mem_empty _ hmemint
    have hcount := pairwiseDisjointB_count_one hdisj hamem hane
    have hge := maxFireBits_ge_of_fires st.pressed
      (Gamacros.applyPhase ph st.pressed ((alGet st.mapping.mapping button).getD button))
      ph ar.buttons a hamem haf
    have hpos : 0 < a.1.card := Finset.card_pos.mpr hane
    have hmbne : Gamacros.maxFireBits ar.buttons st.pressed
        (Gamacros.applyPhase ph st.pressed ((alGet st.mapping.mapping button).getD button))
        ph ≠ 0 := by omega
    obtain ⟨x, hxm, hxf, hxcard⟩ := maxFireBits_attained st.pressed
      (Gamacros.applyPhase ph st.pressed ((alGet st.mapping.mapping button).getD button))
      ph ar.buttons hmbne
    have hmb_eq : a.1.card = Gamacros.maxFireBits ar.buttons st.pressed
        (Gamacros.applyPhase ph st.pressed ((alGet st.mapping.mapping button).getD button))
        ph := (huniq x hxm hxf) ▸ hxcard
    have hpa : (Gamacros.ruleFires st.pressed
        (Gamacros.applyPhase ph st.pressed ((alGet st.mapping.mapping button).getD button))
        ph a.1 &&
        (a.1.card == Gamacros.maxFireBits ar.buttons st.pressed
          (Gamacros.applyPhase ph st.pressed ((alGet st.mapping.mapping button).getD button))
          ph)) = true := by
      rw [Bool.and_eq_true]
      exact ⟨haf, by simp [hmb_eq]⟩
    have hfilter := filter_eq_singleton_of_unique ar.buttons
      (fun tr => Gamacros.ruleFires st.pressed
        (Gamacros.applyPhase ph st.pressed ((alGet st.mapping.mapping button).getD button))
        ph tr.1 &&
        (tr.1.card == Gamacros.maxFireBits ar.buttons st.pressed
          (Gamacros.applyPhase ph st.pressed ((alGet st.mapping.mapping button).getD button))
          ph))
      a hamem hpa
      (fun x hx hpx => huniq x hx ((Bool.and_eq_true _ _).mp hpx).1) hcount
    cases ph with
    | Pressed =>
      refine ⟨vibrActs id a.2 st.rumble ++ [Action.RawModifierPress k0], ?_, ?_⟩
      · rw [on_button_with_resolved g ws ar st now id button .Pressed hw hr hc]
        simp only [if_neg hmbne]
        rw [passB_eq_filter, hfilter]
        simp only [List.foldl_cons, List.foldl_nil]
        simp [Gamacros.execRule, hk0, vibrActs]
      · intro k
        rcases (ruleFires_pressed st.pressed a.1
            ((alGet st.mapping.mapping button).getD button)).mp haf with ⟨hnsub, hsub⟩
        by_cases hkk : k = k0
        · subst hkk
          have hcp : (vibrActs id a.2 st.rumble ++ [Action.RawModifierPress k]).count
              (Action.RawModifierPress k) = 1 := by
            rw [List.count_append, vibrActs_count_press]
            simp
          have hcr : (vibrActs id a.2 st.rumble ++ [Action.RawModifierPress k]).count
              (Action.RawModifierRelease k) = 0 := by
            rw [List.count_append, vibrActs_count_release]
            simp
          have hflip : rawContained ar.buttons k
              (Gamacros.applyPhase .Pressed st.pressed
                ((alGet st.mapping.mapping button).getD button)) =
              rawContained ar.buttons k st.pressed + 1 := by
            unfold rawContained
            refine countP_succ_of_flip ar.buttons _ _ a hcount ?_ ?_ ?_
            · intro x hx hne
              have hxnf : Gamacros.ruleFires st.pressed
                  (Gamacros.applyPhase .Pressed st.pressed
                    ((alGet st.mapping.mapping button).getD button)) .Pressed x.1 = false := by
                cases hf : Gamacros.ruleFires st.pressed
                    (Gamacros.applyPhase .Pressed st.pressed
                      ((alGet st.mapping.mapping button).getD button)) .Pressed x.1
                · rfl
                · exact absurd (huniq x hx hf) hne
              have hiff := not_fires_containment st.pressed
                ((alGet st.mapping.mapping button).getD button) .Pressed x.1 hxnf
              simp only [decide_eq_decide.mpr hiff]
            · simp [hnsub]
            · simp only [Bool.and_eq_true, decide_eq_true_eq]
              exact ⟨hk0, hsub⟩
          rw [hcp, hcr, hflip]
          omega
        · have hcp : (vibrActs id a.2 st.rumble ++ [Action.RawModifierPress k0]).count
              (Action.RawModifierPress k) = 0 := by
            rw [List.count_append, vibrActs_count_press]
            have hk' : k0 ≠ k := fun h => hkk h.symm
            simp [List.count_cons, hk']
          have hcr : (vibrActs id a.2 st.rumble ++ [Action.RawModifierPress k0]).count
              (Action.RawModifierRelease k) = 0 := by
            rw [List.count_append, vibrActs_count_release]
            simp
          have hsame : rawContained ar.buttons k st.pressed =
              rawContained ar.buttons k
                (Gamacros.applyPhase .Pressed st.pressed
                  ((alGet st.mapping.mapping button).getD button)) := by
            unfold rawContained
            apply List.countP_congr
            intro x hx
            by_cases hxa : x = a
            · subst hxa
              have hkne : ¬ x.2.action = ButtonAction.RawModifier k := by
                rw [hk0]
                intro hh
                injection hh with h'
                exact hkk h'.symm
              simp [hkne]
            · have hxnf : Gamacros.ruleFires st.pressed
                  (Gamacros.applyPhase .Pressed st.pressed
                    ((alGet st.mapping.mapping button).getD button)) .Pressed x.1 = false := by
                cases hf : Gamacros.ruleFires st.pressed
                    (Gamacros.applyPhase .Pressed st.pressed
                      ((alGet st.mapping.mapping button).getD button)) .Pressed x.1
                · rfl
                · exact absurd (huniq x hx hf) hxa
              have hiff := not_fires_containment st.pressed
                ((alGet st.mapping.mapping button).getD button) .Pressed x.1 hxnf
              simp only [decide_eq_decide.mpr hiff]
          rw [hcp, hcr, hsame]
    | Released =>
      refine ⟨[Action.RawModifierRelease k0], ?_, ?_⟩
      · rw [on_button_with_resolved g ws ar st now id button .Released hw hr hc]
        simp only [if_neg hmbne]
        rw [passB_eq_filter, hfilter]
        simp only [List.foldl_cons, List.foldl_nil]
        simp [Gamacros.execRule, hk0]
      · intro k
        rcases (ruleFires_released st.pressed a.1
            ((alGet st.mapping.mapping button).getD button)).mp haf with ⟨hsub, hnsub⟩
        by_cases hkk : k = k0
        · subst hkk
          have hcp : ([Action.RawModifierRelease k] : List Action).count
              (Action.RawModifierPress k) = 0 := by simp
          have hcr : ([Action.RawModifierRelease k] : List Action).count
              (Action.RawModifierRelease k) = 1 := by simp
          have hflip : rawContained ar.buttons k st.pressed =
              rawContained ar.buttons k
                (Gamacros.applyPhase .Released st.pressed
                  ((alGet st.mapping.mapping button).getD button)) + 1 := by
            unfold rawContained
            refine countP_succ_of_flip ar.buttons _ _ a hcount ?_ ?_ ?_
            · intro x hx hne
              have hxnf : Gamacros.ruleFires st.pressed
                  (Gamacros.applyPhase .Released st.pressed
                    ((alGet st.mapping.mapping button).getD button)) .Released x.1 = false := by
                cases hf : Gamacros.ruleFires st.pressed
                    (Gamacros.applyPhase .Released st.pressed
                      ((alGet st.mapping.mapping button).getD button)) .Released x.1
                · rfl
                · exact absurd (huniq x hx hf) hne
              have hiff := not_fires_containment st.pressed
                ((alGet st.mapping.mapping button).getD button) .Released x.1 hxnf
              simp only [decide_eq_decide.mpr hiff]
            · simp [Gamacros.applyPhase, hnsub]
            · simp only [Bool.and_eq_true, decide_eq_true_eq]
              exact ⟨hk0, hsub⟩
          rw [hcp, hcr, hflip]
          omega
        · have hcp : ([Action.RawModifierRelease k0] : List Action).count
              (Action.RawModifierPress k) = 0 := by simp
          have hcr : ([Action.RawModifierRelease k0] : List Action).count
              (Action.RawModifierRelease k) = 0 := by
            have hk' : k0 ≠ k := fun h => hkk h.symm
            simp [List.count_cons, hk']
          have hsame : rawContained ar.buttons k st.pressed =
              rawContained ar.buttons k
                (Gamacros.applyPhase .Released st.pressed
                  ((alGet st.mapping.mapping button).getD button)) := by
            unfold rawContained
            apply List.countP_congr
            intro x hx
            by_cases hxa : x = a
            · subst hxa
              have hkne : ¬ x.2.action = ButtonAction.RawModifier k := by
                rw [hk0]
                intro hh
                injection hh with h'
                exact hkk h'.symm
              simp [hkne]
            · have hxnf : Gamacros.ruleFires st.pressed
                  (Gamacros.applyPhase .Released st.pressed
                    ((alGet st.mapping.mapping button).getD button)) .Released x.1 = false := by
                cases hf : Gamacros.ruleFires st.pressed
                    (Gamacros.applyPhase .Released st.pressed
                      ((alGet st.mapping.mapping button).getD button)) .Released x.1
                · rfl
                · exact absurd (huniq x hx hf) hxa
              have hiff := not_fires_containment st.pressed
                ((alGet st.mapping.mapping button).getD button) .Released x.1 hxnf
              simp only [decide_eq_decide.mpr hiff]
          rw [hcp, hcr, hsame]

/-- Run a sequence of `(now, button, phase)` events for one controller through
`on_button_with`, concatenating the emissions. -/
def runButtons (g : Gamacros) (cid : ControllerId) :
    List (Nat × Button × ButtonPhase) → Gamacros × List Action
  | [] => (g, [])
  | e :: es =>
    let r := Gamacros.on_button_with g e.1 cid e.2.1 e.2.2
    let rest := runButtons r.1 cid es
    (rest.1, r.2 ++ rest.2)

theorem runButtons_cons (g : Gamacros) (cid : ControllerId) (e : Nat × Button × ButtonPhase)
    (es : List (Nat × Button × ButtonPhase)) :
    runButtons g cid (e :: es) =
      ((runButtons (Gamacros.on_button_with g e.1 cid e.2.1 e.2.2).1 cid es).1,
       (Gamacros.on_button_with g e.1 cid e.2.1 e.2.2).2 ++
         (runButtons (Gamacros.on_button_with g e.1 cid e.2.1 e.2.2).1 cid es).2) := rfl

/-- The raw-modifier balance invariant along a run: presses already emitted
plus chords contained at the start equal releases already emitted plus chords
contained at the end, per key. -/
theorem raw_run_inv (cid : ControllerId) (evs : List (Nat × Button × ButtonPhase)) :
    ∀ (g : Gamacros) (ws : Profile) (ar : AppRules) (st : ControllerState),
      g.workspace = some ws →
      Gamacros.rulesLookup ws.rules g.active_app = some ar →
      alGet g.controllers cid = some st →
      rawModRulesOK ar.buttons = true →
      ∃ st', alGet (runButtons g cid evs).1.controllers cid = some st' ∧
        ∀ k, (runButtons g cid evs).2.count (Action.RawModifierPress k) +
            rawContained ar.buttons k st.pressed =
          (runButtons g cid evs).2.count (Action.RawModifierRelease k) +
            rawContained ar.buttons k st'.pressed := by
  induction evs with
  | nil =>
    intro g ws ar st hw hr hc hok
    exact ⟨st, hc, fun k => rfl⟩
  | cons e es ih =>
    intro g ws ar st hw hr hc hok
    obtain ⟨acts1, heq, hcnt⟩ := raw_on_button_step g ws ar st e.1 cid e.2.1 e.2.2 hw hr hc hok
    obtain ⟨st', hmem', hcnt'⟩ :=
      ih ({ g with controllers := (alInsert g.controllers cid
            { st with
              pressed := (Gamacros.applyPhase e.2.2 st.pressed
                ((alGet st.mapping.mapping e.2.1).getD e.2.1)) }) })
        ws ar
        { st with
          pressed := (Gamacros.applyPhase e.2.2 st.pressed
            ((alGet st.mapping.mapping e.2.1).getD e.2.1)) }
        hw hr (alGet_alInsert_self _ _ _) hok
    refine ⟨st', ?_, ?_⟩
    · rw [runButtons_cons, heq]
      exact hmem'
    · intro k
      rw [runButtons_cons, heq]
      simp only [List.count_append]
      have h1 := hcnt k
      have h2 := hcnt' k
      dsimp only at h2
      omega

/-- C7 (confirmed, formalized per controller): when every rule of the resolved
app rules binds a nonempty chord to a `RawModifier` action and the chords are
pairwise disjoint, any run of button events for a known controller that starts
and ends with an empty pressed set emits exactly as many `RawModifierPress` as
`RawModifierRelease` actions for every modifier key. -/
theorem raw_modifier_balanced
    (g : Gamacros) (ws : Profile) (ar : AppRules) (st : ControllerState)
    (cid : ControllerId) (evs : List (Nat × Button × ButtonPhase))
    (hw : g.workspace = some ws)
    (hr : Gamacros.rulesLookup ws.rules g.active_app = some ar)
    (hc : alGet g.controllers cid = some st)
    (hok : rawModRulesOK ar.buttons = true)
    (hstart : st.pressed = ∅)
    (hend : ((alGet (runButtons g cid evs).1.controllers cid).map (fun s => s.pressed)).getD ∅
      = ∅) :
    ∀ k, (runButtons g cid evs).2.count (Action.RawModifierPress k) =
      (runButtons g cid evs).2.count (Action.RawModifierRelease k) := by
  intro k
  obtain ⟨st', hmem', hcnt'⟩ := raw_run_inv cid evs g ws ar st hw hr hc hok
  have hempty : ∀ pressed : Bitmask, pressed = ∅ → rawContained ar.buttons k pressed = 0 := by
    intro pressed hp
    subst hp
    unfold rawContained
    rw [List.countP_eq_zero]
    intro tr hm
    have hne := (allRaw_mem ((Bool.and_eq_true _ _).mp hok).1 hm).1
    simp only [Bool.and_eq_true, decide_eq_true_eq, not_and]
    intro _ hsub
    rcases hne with ⟨x, hx⟩
    exact absurd (hsub hx) (Finset.not_mem_empty x)
  have hst' : st'.pressed = ∅ := by
    rw [hmem'] at hend
    exact hend
  have := hcnt' k
  rw [hempty st.pressed hstart, hempty st'.pressed hst'] at this
  omega

/-- A raw-modifier rule: chord Y bound to the Command raw modifier. -/
def rawRuleCmd : ButtonRule :=
  { action := .RawModifier .Command, vibrate := none,
    repeat_delay_ms := none, repeat_interval_ms := none }

/-- The raw-modifier profile of spec scenario S5. -/
def rawProfile : Profile :=
  { controllers := []
    blacklist := []
    rules := [("common", { buttons := [({Button.y}, rawRuleCmd)], sticks := [] })]
    shell := none }

/-- The engine of scenario S5 before any button event. -/
def gRaw : Gamacros :=
  Gamacros.add_controller (Gamacros.set_workspace Gamacros.new rawProfile) padInfo

/-- A press/release pair on the raw-modifier chord. -/
def rawTrace : List (Nat × Button × ButtonPhase) :=
  [(0, Button.y, ButtonPhase.Pressed), (1, Button.y, ButtonPhase.Released)]

/-- Witness for C7 at scenario S5: a press/release pair of Y emits one
`RawModifierPress(Command)` and one `RawModifierRelease(Command)`. -/
theorem raw_modifier_balanced_witness :
    (runButtons gRaw 1 rawTrace).2.count (Action.RawModifierPress RawModifierKey.Command) =
      (runButtons gRaw 1 rawTrace).2.count (Action.RawModifierRelease RawModifierKey.Command) :=
  raw_modifier_balanced gRaw rawProfile
    { buttons := [({Button.y}, rawRuleCmd)], sticks := [] } stKey 1 rawTrace
    (by decide) (by decide) (by decide) (by decide) (by decide) (by decide)
    RawModifierKey.Command

end GamacrosSpec
